import Mathlib

/-!
# Raytracer: a shallow embedding of the tracing kernel

The C++ sources (`Ray.h`, `Sphere.cpp`, `HitableCollection.cpp`, `Material.h`,
`Camera.cpp`, `main.cpp`) are rendered as Lean functions over an ordered field `F`, so
that the `float` computations are read in exact arithmetic.  The square root of
`<cmath>` is a parameter `sqrt : F → F` of every function that calls it (as are `tan`
and `M_PI` for the camera); the theorems instantiate `F` with `ℝ` and `sqrt` with
`Real.sqrt`.

Conventions of the embedding:

* a C++ function `bool f(..., T& out)` that writes every field of `out` before it
  returns `true` and leaves `out` untouched when it returns `false` becomes a
  function into `Option T` (`some` = `true` with the written value);
* a call of the global random generator is replaced by the value the call returns,
  supplied from outside (`Draw`);
* division is the total division of the field (`x / 0 = 0`).  `Sphere::hit` divides
  only after `discriminant > 0`, which excludes a zero direction and a zero radius; the
  normalisation of a zero direction is undefined in the sources, and the theorems that
  bound a normalised direction assume a non-zero one.
-/

namespace Raytracer

/-! ## Vec3 -/

/-- Modelled from the spec: `Vec3.h` is not among the sources; a vector of three
floating-point components with value equality. -/
@[ext]
structure Vec3 (F : Type) where
  x : F
  y : F
  z : F

namespace Vec3

variable {F : Type} [LinearOrderedField F]

/-- Modelled from the spec: `Vec3.h` is missing; componentwise addition `a + b`. -/
instance instAdd : Add (Vec3 F) := ⟨fun a b => ⟨a.x + b.x, a.y + b.y, a.z + b.z⟩⟩

/-- Modelled from the spec: `Vec3.h` is missing; componentwise subtraction `a - b`. -/
instance instSub : Sub (Vec3 F) := ⟨fun a b => ⟨a.x - b.x, a.y - b.y, a.z - b.z⟩⟩

/-- Modelled from the spec: `Vec3.h` is missing; componentwise negation `-a`. -/
instance instNeg : Neg (Vec3 F) := ⟨fun a => ⟨-a.x, -a.y, -a.z⟩⟩

/-- Modelled from the spec: `Vec3.h` is missing; componentwise product `a * b`
of two vectors (used for `attenuation * colour`). -/
instance instMul : Mul (Vec3 F) := ⟨fun a b => ⟨a.x * b.x, a.y * b.y, a.z * b.z⟩⟩

/-- Modelled from the spec: `Vec3.h` is missing; scalar scale, written `k * v` or
`v * k` in the sources and `k • v` here. -/
instance instSMul : SMul F (Vec3 F) := ⟨fun k a => ⟨k * a.x, k * a.y, k * a.z⟩⟩

/-- Modelled from the spec: `Vec3.h` is missing; division `v / k` of every component
by a scalar. -/
instance instHDiv : HDiv (Vec3 F) F (Vec3 F) := ⟨fun a k => ⟨a.x / k, a.y / k, a.z / k⟩⟩

/-- Modelled from the spec: `Vec3.h` is missing; the vector `Vec3(0, 0, 0)`. -/
instance instZero : Zero (Vec3 F) := ⟨⟨0, 0, 0⟩⟩

/-- Modelled from the spec: `Vec3.h` is missing; `Vec3::dotProduct`. -/
def dotProduct (a b : Vec3 F) : F := a.x * b.x + a.y * b.y + a.z * b.z

/-- Modelled from the spec: `Vec3.h` is missing; `Vec3::crossProduct`. -/
def crossProduct (a b : Vec3 F) : Vec3 F :=
  ⟨a.y * b.z - a.z * b.y, a.z * b.x - a.x * b.z, a.x * b.y - a.y * b.x⟩

/-- Modelled from the spec: `Vec3.h` is missing; `squaredLength()`. -/
def squaredLength (a : Vec3 F) : F := a.x * a.x + a.y * a.y + a.z * a.z

/-- Modelled from the spec: `Vec3.h` is missing; `length()`, the square root of the
squared length. -/
def length (sqrt : F → F) (a : Vec3 F) : F := sqrt (squaredLength a)

/-- Modelled from the spec: `Vec3.h` is missing; `Vec3::unitVector`, the vector
divided by its length.  The spec leaves the normalisation of the zero vector undefined;
the value the total division gives it here is used by no theorem: each one either has
a non-zero argument or holds whatever that value is. -/
def unitVector (sqrt : F → F) (a : Vec3 F) : Vec3 F := a / length sqrt a

end Vec3

/-! ## Ray -/

/-- The class `Ray` of `Ray.h`: an origin and a direction. -/
structure Ray (F : Type) where
  origin : Vec3 F
  direction : Vec3 F

/-- The method `Ray::pointAtParameter`: `_origin + (t * _direction)`. -/
def Ray.pointAtParameter {F : Type} [LinearOrderedField F] (r : Ray F) (t : F) : Vec3 F :=
  r.origin + t • r.direction

/-! ## Materials and hit records -/

/-- The data of class `Lambertian`: `_albedo`. -/
structure Lambertian (F : Type) where
  albedo : Vec3 F

/-- The data of class `Metal`: `_albedo` and `_bluriness`. -/
structure Metal (F : Type) where
  albedo : Vec3 F
  bluriness : F

/-- The data of class `Dielectric`: `_refractiveIndex`. -/
structure Dielectric (F : Type) where
  refractiveIndex : F

/-- The three subclasses of the abstract class `Material`; a `Material*` of the
sources is the value it points to. -/
inductive Material (F : Type) where
  | lambertian (m : Lambertian F)
  | metal (m : Metal F)
  | dielectric (m : Dielectric F)

/-- The struct `HitableProperties` of `HitableObject.h`. -/
structure HitableProperties (F : Type) where
  t : F
  p : Vec3 F
  normal : Vec3 F
  material : Material F

/-- The data of class `Sphere`: `_center`, `_radius`, `_material`. -/
structure Sphere (F : Type) where
  center : Vec3 F
  radius : F
  material : Material F

/-- The class `HitableCollection`: the vector `_list`, in insertion order (the only
`HitableObject` of the sources is `Sphere`). -/
structure HitableCollection (F : Type) where
  list : List (Sphere F)

section Code

variable {F : Type} [LinearOrderedField F]

/-- The constructor `Metal::Metal(albedo, bluriness)`:
`if (bluriness < 1) _bluriness = bluriness; else _bluriness = 1.0f;`. -/
def Metal.new (albedo : Vec3 F) (bluriness : F) : Raytracer.Metal F :=
  { albedo := albedo, bluriness := if bluriness < 1 then bluriness else 1 }

/-- The method `HitableCollection::add`: `_list.push_back(object)`. -/
def HitableCollection.add (world : HitableCollection F) (object : Sphere F) :
    HitableCollection F :=
  { list := world.list ++ [object] }

/-- The private overload `Sphere::hit(r, t_min, t_max, properties, t)`: accepts the
candidate parameter `t` when `t < t_max && t > t_min` and then writes all four
fields of the record. -/
def Sphere.hitT (s : Sphere F) (r : Ray F) (t_min t_max : F) (t : F) :
    Option (HitableProperties F) :=
  if t < t_max ∧ t > t_min then
    some { t := t
           p := r.pointAtParameter t
           normal := (r.pointAtParameter t - s.center) / s.radius
           material := s.material }
  else
    none

/-- The method `Sphere::hit(r, t_min, t_max, properties)`: `some record` when the
source returns `true`, `none` when it returns `false`. -/
def Sphere.hit (sqrt : F → F) (s : Sphere F) (r : Ray F) (t_min t_max : F) :
    Option (HitableProperties F) :=
  let oc := r.origin - s.center
  let a := Vec3.dotProduct r.direction r.direction
  let b := Vec3.dotProduct oc r.direction
  let c := Vec3.dotProduct oc oc - (s.radius * s.radius)
  let discriminant := (b * b) - (a * c)
  if discriminant > 0 then
    match s.hitT r t_min t_max ((-b - sqrt discriminant) / a) with
    | some properties => some properties
    | none => s.hitT r t_min t_max ((-b + sqrt discriminant) / a)
  else
    none

/-- One iteration of the loop of `HitableCollection::hit`; the state is
`(nearestHitSoFar, properties)`, where `properties` is `some` once `didHit` is
`true`. -/
def HitableCollection.hitStep (sqrt : F → F) (r : Ray F) (t_min : F)
    (st : F × Option (HitableProperties F)) (object : Sphere F) :
    F × Option (HitableProperties F) :=
  match object.hit sqrt r t_min st.1 with
  | some tempProperties => (tempProperties.t, some tempProperties)
  | none => st

/-- The method `HitableCollection::hit`: the loop over `_list` started with
`didHit = false` and `nearestHitSoFar = t_max`. -/
def HitableCollection.hit (sqrt : F → F) (world : HitableCollection F) (r : Ray F)
    (t_min t_max : F) : Option (HitableProperties F) :=
  (world.list.foldl (HitableCollection.hitStep sqrt r t_min) (t_max, none)).2

/-- The record written by the private overload of `Sphere::hit` for parameter `t`. -/
def Sphere.record (s : Sphere F) (r : Ray F) (t : F) :
    HitableProperties F :=
  { t := t
    p := r.pointAtParameter t
    normal := (r.pointAtParameter t - s.center) / s.radius
    material := s.material }

/-- The coefficient `a` of `Sphere::hit`. -/
def Sphere.qa (r : Ray F) : F :=
  Vec3.dotProduct r.direction r.direction

/-- The coefficient `b` of `Sphere::hit`. -/
def Sphere.qb (s : Sphere F) (r : Ray F) : F :=
  Vec3.dotProduct (r.origin - s.center) r.direction

/-- The coefficient `c` of `Sphere::hit`. -/
def Sphere.qc (s : Sphere F) (r : Ray F) : F :=
  Vec3.dotProduct (r.origin - s.center) (r.origin - s.center) - s.radius * s.radius

/-- The local `discriminant` of `Sphere::hit`. -/
def Sphere.disc (s : Sphere F) (r : Ray F) : F :=
  Sphere.qb s r * Sphere.qb s r - Sphere.qa r * Sphere.qc s r

/-- The first candidate of `Sphere::hit`, the smaller root. -/
def Sphere.root1 (sqrt : F → F) (s : Sphere F) (r : Ray F) : F :=
  (-Sphere.qb s r - sqrt (Sphere.disc s r)) / Sphere.qa r

/-- The second candidate of `Sphere::hit`, the larger root. -/
def Sphere.root2 (sqrt : F → F) (s : Sphere F) (r : Ray F) : F :=
  (-Sphere.qb s r + sqrt (Sphere.disc s r)) / Sphere.qa r

/-! ### Materials (`Material.h`) -/

/-- What one call of `scatter` receives from outside the function: the value returned
by its call of `randomPointInUnitSphere()`, the value returned by its call of
`drand48()`, and the content of the local `Vec3 refracted`, which
`Dielectric::scatter` declares without initialising. -/
structure Draw (F : Type) where
  randomPointInUnitSphere : Vec3 F
  drand48 : F
  refracted : Vec3 F

/-- The outcome of a call of `Material::scatter`: the returned flag and the two
output parameters, which every implementation assigns on every path. -/
structure Scattered (F : Type) where
  returned : Bool
  scatteredRay : Ray F
  rayAttenuation : Vec3 F

/-- The function `reflect`: `v - 2 * dotProduct(v, n) * n`. -/
def reflect (v n : Vec3 F) : Vec3 F :=
  v - (2 * Vec3.dotProduct v n) • n

/-- The function `refract`: `some refracted` when it returns `true`, `none` when it
returns `false` (and leaves `refracted` untouched). -/
def refract (sqrt : F → F) (v n : Vec3 F) (ni_over_nt : F) : Option (Vec3 F) :=
  let uv := Vec3.unitVector sqrt v
  let dt := Vec3.dotProduct uv n
  let discriminant := 1 - ni_over_nt * ni_over_nt * (1 - dt * dt)
  if discriminant > 0 then
    some (ni_over_nt • (uv - dt • n) - sqrt discriminant • n)
  else
    none

/-- The function `schlick`. -/
def schlick (cosine reflectionCoefficient : F) : F :=
  let r0 := (1 - reflectionCoefficient) / (1 + reflectionCoefficient)
  let r0 := r0 * r0
  r0 + (1 - r0) * (1 - cosine) ^ 5

/-- The method `Lambertian::scatter`. -/
def Lambertian.scatter (m : Lambertian F) (_r_in : Ray F) (hitRecord : HitableProperties F)
    (draw : Draw F) : Scattered F :=
  let target := hitRecord.p + hitRecord.normal + draw.randomPointInUnitSphere
  { returned := true
    scatteredRay := { origin := hitRecord.p, direction := target - hitRecord.p }
    rayAttenuation := m.albedo }

/-- The method `Metal::scatter`. -/
def Metal.scatter (sqrt : F → F) (m : Metal F) (r_in : Ray F) (hitRecord : HitableProperties F)
    (draw : Draw F) : Scattered F :=
  let reflected := reflect (Vec3.unitVector sqrt r_in.direction) hitRecord.normal
  let scatteredRay : Ray F :=
    { origin := hitRecord.p
      direction := reflected + m.bluriness • draw.randomPointInUnitSphere }
  { returned := decide (Vec3.dotProduct scatteredRay.direction hitRecord.normal > 0)
    scatteredRay := scatteredRay
    rayAttenuation := m.albedo }

/-- The first `if` of `Dielectric::scatter`: the triple
`(outwardNormal, ni_over_nt, cosine)`. -/
def Dielectric.orient (sqrt : F → F) (m : Dielectric F) (r_in : Ray F)
    (hitRecord : HitableProperties F) : Vec3 F × F × F :=
  if Vec3.dotProduct r_in.direction hitRecord.normal > 0 then
    let cosine := Vec3.dotProduct r_in.direction hitRecord.normal
      / Vec3.length sqrt r_in.direction
    (-hitRecord.normal, m.refractiveIndex,
      sqrt (1 - m.refractiveIndex * m.refractiveIndex * (1 - cosine * cosine)))
  else
    (hitRecord.normal, 1 / m.refractiveIndex,
      -Vec3.dotProduct r_in.direction hitRecord.normal / Vec3.length sqrt r_in.direction)

/-- The method `Dielectric::scatter`. -/
def Dielectric.scatter (sqrt : F → F) (m : Dielectric F) (r_in : Ray F)
    (hitRecord : HitableProperties F) (draw : Draw F) : Scattered F :=
  let rayAttenuation : Vec3 F := ⟨1, 1, 1⟩
  let reflected := reflect r_in.direction hitRecord.normal
  let (outwardNormal, ni_over_nt, cosine) := Dielectric.orient sqrt m r_in hitRecord
  let (refracted, probabilityOfReflection) :=
    match refract sqrt r_in.direction outwardNormal ni_over_nt with
    | some refracted => (refracted, schlick cosine m.refractiveIndex)
    | none => (draw.refracted, 1)
  if draw.drand48 < probabilityOfReflection then
    { returned := true
      scatteredRay := { origin := hitRecord.p, direction := reflected }
      rayAttenuation := rayAttenuation }
  else
    { returned := true
      scatteredRay := { origin := hitRecord.p, direction := refracted }
      rayAttenuation := rayAttenuation }

/-- The virtual call `material->scatter(...)`. -/
def Material.scatter (sqrt : F → F) (material : Material F) (r_in : Ray F)
    (hitRecord : HitableProperties F) (draw : Draw F) : Scattered F :=
  match material with
  | .lambertian m => m.scatter r_in hitRecord draw
  | .metal m => m.scatter sqrt r_in hitRecord draw
  | .dielectric m => m.scatter sqrt r_in hitRecord draw

/-! ### The integrator (`main.cpp`) -/

/-- The constant `BLACK(0.0f, 0.0f, 0.0f)`. -/
def BLACK : Vec3 F := ⟨0, 0, 0⟩

/-- The constant `BLUE(0.5f, 0.7f, 1.0f)`, read as exact decimals. -/
def BLUE : Vec3 F := ⟨1 / 2, 7 / 10, 1⟩

/-- The constant `WHITE(1.0f, 1.0f, 1.0f)`. -/
def WHITE : Vec3 F := ⟨1, 1, 1⟩

/-- The constant `FLT_MAX` of `<cfloat>`: `(2 - 2^-23) * 2^127`. -/
def FLT_MAX : F := 340282346638528859811704183484516925440

/-- The function `calculateColor`.  The first component is the returned colour; the
second is a ghost trace, the `depth` arguments of the invocations performed, in call
order.  The random generator is the sequence `draws`: this invocation's `scatter`
receives `draws 0`, the recursive invocation the rest of the sequence. -/
def calculateColor (sqrt : F → F) (world : HitableCollection F) (r : Ray F) (depth : Int)
    (draws : Nat → Draw F) : Vec3 F × List Int :=
  match world.hit sqrt r (1 / 100000) FLT_MAX with
  | some properties =>
    if _hdepth : depth < 50 then
      let s := properties.material.scatter sqrt r properties (draws 0)
      if s.returned then
        let rest := calculateColor sqrt world s.scatteredRay (depth + 1) (fun i => draws (i + 1))
        (s.rayAttenuation * rest.1, depth :: rest.2)
      else
        (BLACK, [depth])
    else
      (BLACK, [depth])
  | none =>
    let unitDirection := Vec3.unitVector sqrt r.direction
    let t := 1 / 2 * (unitDirection.y + 1)
    ((1 - t) • WHITE + t • BLUE, [depth])
termination_by (50 - depth).toNat
decreasing_by omega

/-! ### The rejection loop of `randomPointInUnitSphere` (`Material.h`) -/

/-- The function `randomPointInUnitSphere`.  `draws` is the sequence of the values the
successive calls of `drand48()` return; each round of the `do ... while` loop takes
three of them.  The result is the accepted point with the draws that remain, or `none`
when `fuel` rounds have all been rejected. -/
def randomPointInUnitSphere (draws : Nat → F) : Nat → Option (Vec3 F × (Nat → F))
  | 0 => none
  | fuel + 1 =>
    let x := draws 0
    let y := draws 1
    let z := draws 2
    let point : Vec3 F := (2 : F) • ⟨x, y, z⟩ - ⟨1, 1, 1⟩
    if point.squaredLength ≥ 1 then
      randomPointInUnitSphere (fun i => draws (i + 3)) fuel
    else
      some (point, fun i => draws (i + 3))

/-! ### The camera (`Camera.cpp`) -/

/-- The data members of class `Camera`. -/
structure Camera (F : Type) where
  origin : Vec3 F
  lowerLeftCorner : Vec3 F
  horizontal : Vec3 F
  vertical : Vec3 F
  u : Vec3 F
  v : Vec3 F
  w : Vec3 F
  lensRadius : F

/-- The constructor `Camera::Camera`; `tan` and `M_PI` of `<cmath>` are parameters. -/
def Camera.new (sqrt tan : F → F) (M_PI : F) (lookFrom lookAt up : Vec3 F)
    (vFov aspectRatio aperture focusDistance : F) : Camera F :=
  let lensRadius := aperture / 2
  let theta := vFov * M_PI / 180
  let halfHeight := tan (theta / 2)
  let halfWidth := aspectRatio * halfHeight
  let w := Vec3.unitVector sqrt (lookFrom - lookAt)
  let u := Vec3.unitVector sqrt (Vec3.crossProduct up w)
  let v := Vec3.crossProduct w u
  let origin := lookFrom
  { origin := origin
    lowerLeftCorner := origin - (halfWidth * focusDistance) • u
      - (halfHeight * focusDistance) • v - focusDistance • w
    horizontal := (2 * halfWidth * focusDistance) • u
    vertical := (2 * halfHeight * focusDistance) • v
    u := u
    v := v
    w := w
    lensRadius := lensRadius }

/-- The method `Camera::calculateRay`; `randomPointInUnitDisk` is the value returned by
its call of `randomPointInUnitDisk()`. -/
def Camera.calculateRay (camera : Camera F) (s t : F) (randomPointInUnitDisk : Vec3 F) :
    Ray F :=
  let randomPointOnLens := camera.lensRadius • randomPointInUnitDisk
  let offset := randomPointOnLens.x • camera.u + randomPointOnLens.y • camera.v
  { origin := camera.origin + offset
    direction := camera.lowerLeftCorner + s • camera.horizontal + t • camera.vertical
      - camera.origin - offset }

/-! ### Gamma correction and quantisation (`main.cpp`) -/

/-- The conversion `int(x)` of a `float` to `int`: truncation toward zero. -/
def toInt [FloorRing F] (x : F) : Int :=
  if 0 ≤ x then Int.floor x else Int.ceil x

/-- The channel value `int(255.99999f * c)` that `main` writes for the gamma-corrected
channel `c`; the constant is read as the exact decimal. -/
def channel [FloorRing F] (c : F) : Int :=
  toInt (25599999 / 100000 * c)

/-- The end of the pixel loop of `main`: gamma correction
`color = Vec3(sqrtf(color[0]), sqrtf(color[1]), sqrtf(color[2]))` of the averaged
colour and the three integers `red`, `green`, `blue` written to the file. -/
def quantise [FloorRing F] (sqrt : F → F) (color : Vec3 F) : Int × Int × Int :=
  let color : Vec3 F := ⟨sqrt color.x, sqrt color.y, sqrt color.z⟩
  (channel color.x, channel color.y, channel color.z)

/-- The accumulation of the pixel loop of `main`: `color` starts at `(0, 0, 0)`, every
sample is added with `+=`, and the sum is divided by `float(nbrOfSamples)`. -/
def average (samples : List (Vec3 F)) : Vec3 F :=
  samples.foldl (fun color sample => color + sample) ⟨0, 0, 0⟩ / (samples.length : F)

/-! ### Concrete configurations used to instantiate the theorems -/

/-- A diffuse material of albedo `(0.5, 0.5, 0.5)`, as the ground sphere of
`populateRandomWorld`. -/
def matteGrey : Material F := .lambertian { albedo := ⟨1 / 2, 1 / 2, 1 / 2⟩ }

/-- The metal of the last sphere of `populateRandomWorld`:
`Metal(Vec3(0.7f, 0.6f, 0.5f), 0.0f)`. -/
def mirror : Material F := .metal (Metal.new ⟨7 / 10, 6 / 10, 5 / 10⟩ 0)

/-- The sphere of radius `1` about the origin. -/
def unitSphere (material : Material F) : Sphere F :=
  { center := ⟨0, 0, 0⟩, radius := 1, material := material }

/-- The ray from `(0, 0, -2)` along the z-axis. -/
def axisRay : Ray F := { origin := ⟨0, 0, -2⟩, direction := ⟨0, 0, 1⟩ }

/-- The record of the hit of `axisRay` on `unitSphere material`. -/
def axisRecord (material : Material F) : HitableProperties F :=
  { t := 1, p := ⟨0, 0, -1⟩, normal := ⟨0, 0, -1⟩, material := material }

/-- The ray from the origin with the unit direction `(3/5, 4/5, 0)`. -/
def slantRay : Ray F := { origin := ⟨0, 0, 0⟩, direction := ⟨3 / 5, 4 / 5, 0⟩ }

/-- A record of a hit of `slantRay` at `t = 1` on a surface of normal `(0, 1, 0)`. -/
def slantRecord (material : Material F) : HitableProperties F :=
  { t := 1, p := ⟨3 / 5, 4 / 5, 0⟩, normal := ⟨0, 1, 0⟩, material := material }

/-- The draws of one `scatter` call: the sample `(0, 0, 0)` of the unit ball and the
uniform value `1/2`. -/
def halfDraw : Draw F :=
  { randomPointInUnitSphere := ⟨0, 0, 0⟩, drand48 := 1 / 2, refracted := ⟨0, 0, 0⟩ }

/-! ### Predicates used to state the properties -/

/-- Every channel of the colour lies in `[0, 1]`. -/
def Vec3.inUnit (c : Vec3 F) : Prop :=
  (0 ≤ c.x ∧ c.x ≤ 1) ∧ (0 ≤ c.y ∧ c.y ≤ 1) ∧ (0 ≤ c.z ∧ c.z ≤ 1)

end Code

/-! ## Projections of the vector operations -/

namespace Vec3

variable {F : Type} [LinearOrderedField F]

@[simp] theorem add_x (a b : Vec3 F) : (a + b).x = a.x + b.x := rfl
@[simp] theorem add_y (a b : Vec3 F) : (a + b).y = a.y + b.y := rfl
@[simp] theorem add_z (a b : Vec3 F) : (a + b).z = a.z + b.z := rfl
@[simp] theorem sub_x (a b : Vec3 F) : (a - b).x = a.x - b.x := rfl
@[simp] theorem sub_y (a b : Vec3 F) : (a - b).y = a.y - b.y := rfl
@[simp] theorem sub_z (a b : Vec3 F) : (a - b).z = a.z - b.z := rfl
@[simp] theorem neg_x (a : Vec3 F) : (-a).x = -a.x := rfl
@[simp] theorem neg_y (a : Vec3 F) : (-a).y = -a.y := rfl
@[simp] theorem neg_z (a : Vec3 F) : (-a).z = -a.z := rfl
@[simp] theorem mul_x (a b : Vec3 F) : (a * b).x = a.x * b.x := rfl
@[simp] theorem mul_y (a b : Vec3 F) : (a * b).y = a.y * b.y := rfl
@[simp] theorem mul_z (a b : Vec3 F) : (a * b).z = a.z * b.z := rfl
@[simp] theorem smul_x (k : F) (a : Vec3 F) : (k • a).x = k * a.x := rfl
@[simp] theorem smul_y (k : F) (a : Vec3 F) : (k • a).y = k * a.y := rfl
@[simp] theorem smul_z (k : F) (a : Vec3 F) : (k • a).z = k * a.z := rfl
@[simp] theorem div_x (a : Vec3 F) (k : F) : (a / k).x = a.x / k := rfl
@[simp] theorem div_y (a : Vec3 F) (k : F) : (a / k).y = a.y / k := rfl
@[simp] theorem div_z (a : Vec3 F) (k : F) : (a / k).z = a.z / k := rfl
@[simp] theorem zero_x : (0 : Vec3 F).x = 0 := rfl
@[simp] theorem zero_y : (0 : Vec3 F).y = 0 := rfl
@[simp] theorem zero_z : (0 : Vec3 F).z = 0 := rfl

end Vec3

/-! ## Lemmas on vectors and on the quadratic of `Sphere::hit` -/

section VecLemmas

variable {F : Type} [LinearOrderedField F]

theorem Vec3.dotProduct_self_nonneg (v : Vec3 F) : 0 ≤ Vec3.dotProduct v v := by
  unfold Vec3.dotProduct
  nlinarith [mul_self_nonneg v.x, mul_self_nonneg v.y, mul_self_nonneg v.z]

theorem Vec3.dotProduct_self_pos {v : Vec3 F} (hv : v ≠ 0) : 0 < Vec3.dotProduct v v := by
  rcases lt_or_eq_of_le (Vec3.dotProduct_self_nonneg v) with h | h
  · exact h
  · exfalso
    apply hv
    unfold Vec3.dotProduct at h
    have hx : v.x * v.x = 0 := by
      nlinarith [mul_self_nonneg v.x, mul_self_nonneg v.y, mul_self_nonneg v.z]
    have hy : v.y * v.y = 0 := by
      nlinarith [mul_self_nonneg v.x, mul_self_nonneg v.y, mul_self_nonneg v.z]
    have hz : v.z * v.z = 0 := by
      nlinarith [mul_self_nonneg v.x, mul_self_nonneg v.y, mul_self_nonneg v.z]
    ext
    · simpa using hx
    · simpa using hy
    · simpa using hz

/-- Factorisation of `a t² + 2 b t + c` over its two roots `(-b ∓ s) / a`, where
`s² = b² - a c`. -/
theorem quadratic_factor (a b c s t : F) (ha : a ≠ 0) (hs : s * s = b * b - a * c) :
    a * t * t + 2 * b * t + c = a * (t - (-b - s) / a) * (t - (-b + s) / a) := by
  have hc : c = (b * b - s * s) / a := by
    field_simp
    linear_combination hs
  rw [hc]
  field_simp
  ring

end VecLemmas

section SphereLemmas

theorem Sphere.hitT_eq {F : Type} [LinearOrderedField F] (s : Sphere F) (r : Ray F)
    (tMin tMax t : F) :
    s.hitT r tMin tMax t = if t < tMax ∧ t > tMin then some (s.record r t) else none := rfl

theorem Sphere.hit_eq {F : Type} [LinearOrderedField F] (sqrt : F → F) (s : Sphere F)
    (r : Ray F) (tMin tMax : F) :
    s.hit sqrt r tMin tMax =
      if Sphere.disc s r > 0 then
        (if Sphere.root1 sqrt s r < tMax ∧ Sphere.root1 sqrt s r > tMin then
          some (s.record r (Sphere.root1 sqrt s r))
        else if Sphere.root2 sqrt s r < tMax ∧ Sphere.root2 sqrt s r > tMin then
          some (s.record r (Sphere.root2 sqrt s r))
        else none)
      else none := by
  simp only [Sphere.hit, Sphere.hitT_eq, Sphere.disc, Sphere.root1, Sphere.root2, Sphere.qa,
    Sphere.qb, Sphere.qc]
  split_ifs <;> rfl

/-- A ray of zero direction has discriminant `0` and is never accepted. -/
theorem Sphere.hit_direction_ne_zero {F : Type} [LinearOrderedField F] (sqrt : F → F)
    (s : Sphere F) (r : Ray F) (tMin tMax : F) (properties : HitableProperties F)
    (hhit : s.hit sqrt r tMin tMax = some properties) : r.direction ≠ 0 := by
  intro hzero
  have hd : Sphere.disc s r = 0 := by
    simp [Sphere.disc, Sphere.qa, Sphere.qb, Vec3.dotProduct, hzero]
  rw [Sphere.hit_eq, hd, if_neg (lt_irrefl 0)] at hhit
  exact absurd hhit (by simp)

/-- The squared distance of the point at parameter `t` to the centre, minus the
squared radius, is the quadratic `a t² + 2 b t + c`. -/
theorem Sphere.dist_eq_quadratic {F : Type} [LinearOrderedField F] (s : Sphere F) (r : Ray F)
    (t : F) :
    Vec3.dotProduct (r.pointAtParameter t - s.center) (r.pointAtParameter t - s.center)
        - s.radius * s.radius
      = Sphere.qa r * t * t + 2 * Sphere.qb s r * t + Sphere.qc s r := by
  simp only [Vec3.dotProduct, Ray.pointAtParameter, Sphere.qa, Sphere.qb, Sphere.qc,
    Vec3.add_x, Vec3.add_y, Vec3.add_z, Vec3.sub_x, Vec3.sub_y, Vec3.sub_z,
    Vec3.smul_x, Vec3.smul_y, Vec3.smul_z]
  ring

theorem Sphere.qa_pos {r : Ray ℝ} (hdir : r.direction ≠ 0) : 0 < Sphere.qa r :=
  Vec3.dotProduct_self_pos hdir

theorem Sphere.root1_lt_root2 (s : Sphere ℝ) {r : Ray ℝ} (hdir : r.direction ≠ 0)
    (hd : Sphere.disc s r > 0) :
    Sphere.root1 Real.sqrt s r < Sphere.root2 Real.sqrt s r := by
  have ha := Sphere.qa_pos hdir
  have hs : 0 < Real.sqrt (Sphere.disc s r) := Real.sqrt_pos.mpr hd
  unfold Sphere.root1 Sphere.root2
  rw [div_lt_div_iff_of_pos_right ha]
  linarith

/-- The quadratic of `Sphere::hit`, factored over the two candidates. -/
theorem Sphere.dist_eq_factor (s : Sphere ℝ) {r : Ray ℝ} (hdir : r.direction ≠ 0)
    (hd : Sphere.disc s r > 0) (t : ℝ) :
    Vec3.dotProduct (r.pointAtParameter t - s.center) (r.pointAtParameter t - s.center)
        - s.radius * s.radius
      = Sphere.qa r * (t - Sphere.root1 Real.sqrt s r) * (t - Sphere.root2 Real.sqrt s r) := by
  rw [Sphere.dist_eq_quadratic]
  exact quadratic_factor _ _ _ _ t (ne_of_gt (Sphere.qa_pos hdir))
    (Real.mul_self_sqrt (le_of_lt hd))

/-- What `Sphere::hit` reports: the smaller root when it is inside the interval, else
the larger root when that is inside (and then the smaller root is at most `tMin`). -/
theorem Sphere.hit_some_cases (s : Sphere ℝ) {r : Ray ℝ} (hdir : r.direction ≠ 0)
    {tMin tMax : ℝ} {properties : HitableProperties ℝ}
    (hhit : s.hit Real.sqrt r tMin tMax = some properties) :
    Sphere.disc s r > 0 ∧
      ((properties = s.record r (Sphere.root1 Real.sqrt s r) ∧
          tMin < Sphere.root1 Real.sqrt s r ∧ Sphere.root1 Real.sqrt s r < tMax) ∨
       (properties = s.record r (Sphere.root2 Real.sqrt s r) ∧
          Sphere.root1 Real.sqrt s r ≤ tMin ∧
          tMin < Sphere.root2 Real.sqrt s r ∧ Sphere.root2 Real.sqrt s r < tMax)) := by
  rw [Sphere.hit_eq] at hhit
  by_cases hd : Sphere.disc s r > 0
  · refine ⟨hd, ?_⟩
    rw [if_pos hd] at hhit
    have h12 := Sphere.root1_lt_root2 s hdir hd
    by_cases h1 : Sphere.root1 Real.sqrt s r < tMax ∧ Sphere.root1 Real.sqrt s r > tMin
    · rw [if_pos h1] at hhit
      exact Or.inl ⟨(Option.some.inj hhit).symm, h1.2, h1.1⟩
    · rw [if_neg h1] at hhit
      by_cases h2 : Sphere.root2 Real.sqrt s r < tMax ∧ Sphere.root2 Real.sqrt s r > tMin
      · rw [if_pos h2] at hhit
        refine Or.inr ⟨(Option.some.inj hhit).symm, ?_, h2.2, h2.1⟩
        by_contra hlt
        exact h1 ⟨lt_trans h12 h2.1, not_le.mp hlt⟩
      · rw [if_neg h2] at hhit
        exact absurd hhit (by simp)
  · rw [if_neg hd] at hhit
    exact absurd hhit (by simp)

/-- The accepted parameter lies strictly inside `(tMin, tMax)`. -/
theorem Sphere.hit_t_bounds (s : Sphere ℝ) {r : Ray ℝ} (hdir : r.direction ≠ 0)
    {tMin tMax : ℝ} {properties : HitableProperties ℝ}
    (hhit : s.hit Real.sqrt r tMin tMax = some properties) :
    tMin < properties.t ∧ properties.t < tMax := by
  rcases Sphere.hit_some_cases s hdir hhit with ⟨_, ⟨rfl, h1, h2⟩ | ⟨rfl, _, h1, h2⟩⟩
  · exact ⟨h1, h2⟩
  · exact ⟨h1, h2⟩

/-- The record of an accepted hit is the one written for its own parameter. -/
theorem Sphere.hit_record (s : Sphere ℝ) {r : Ray ℝ} (hdir : r.direction ≠ 0)
    {tMin tMax : ℝ} {properties : HitableProperties ℝ}
    (hhit : s.hit Real.sqrt r tMin tMax = some properties) :
    properties = s.record r properties.t := by
  rcases Sphere.hit_some_cases s hdir hhit with ⟨_, ⟨rfl, _⟩ | ⟨rfl, _⟩⟩ <;> rfl

/-- The hit point of an accepted hit lies on the sphere. -/
theorem Sphere.hit_on_sphere (s : Sphere ℝ) {r : Ray ℝ} (hdir : r.direction ≠ 0)
    {tMin tMax : ℝ} {properties : HitableProperties ℝ}
    (hhit : s.hit Real.sqrt r tMin tMax = some properties) :
    Vec3.dotProduct (properties.p - s.center) (properties.p - s.center)
      = s.radius * s.radius := by
  rcases Sphere.hit_some_cases s hdir hhit with ⟨hd, ⟨rfl, _⟩ | ⟨rfl, _⟩⟩
  · have h := Sphere.dist_eq_factor s hdir hd (Sphere.root1 Real.sqrt s r)
    rw [sub_self, mul_zero, zero_mul] at h
    exact sub_eq_zero.mp h
  · have h := Sphere.dist_eq_factor s hdir hd (Sphere.root2 Real.sqrt s r)
    rw [sub_self, mul_zero] at h
    exact sub_eq_zero.mp h

/-- No parameter strictly between `tMin` and the accepted one is on the sphere. -/
theorem Sphere.hit_no_earlier (s : Sphere ℝ) {r : Ray ℝ} (hdir : r.direction ≠ 0)
    {tMin tMax : ℝ} {properties : HitableProperties ℝ}
    (hhit : s.hit Real.sqrt r tMin tMax = some properties) (t : ℝ) (h1 : tMin < t)
    (h2 : t < properties.t) :
    Vec3.dotProduct (r.pointAtParameter t - s.center) (r.pointAtParameter t - s.center)
      ≠ s.radius * s.radius := by
  intro hon
  have ha := Sphere.qa_pos hdir
  rcases Sphere.hit_some_cases s hdir hhit with ⟨hd, ⟨rfl, _⟩ | ⟨rfl, hle, _⟩⟩
  · have h := Sphere.dist_eq_factor s hdir hd t
    rw [hon, sub_self] at h
    have h12 := Sphere.root1_lt_root2 s hdir hd
    have hlt : t < Sphere.root1 Real.sqrt s r := h2
    have hpos : 0 < Sphere.qa r * (t - Sphere.root1 Real.sqrt s r)
        * (t - Sphere.root2 Real.sqrt s r) := by
      rw [mul_assoc]
      exact mul_pos ha (mul_pos_of_neg_of_neg (by linarith) (by linarith))
    linarith
  · have h := Sphere.dist_eq_factor s hdir hd t
    rw [hon, sub_self] at h
    have hlt : t < Sphere.root2 Real.sqrt s r := h2
    have hneg : Sphere.qa r * (t - Sphere.root1 Real.sqrt s r)
        * (t - Sphere.root2 Real.sqrt s r) < 0 :=
      mul_neg_of_pos_of_neg (mul_pos ha (by linarith)) (by linarith)
    linarith

/-- Calling `Sphere::hit` with a smaller upper bound: the same record when its
parameter is still below the bound, no hit otherwise. -/
theorem Sphere.hit_shrink (s : Sphere ℝ) {r : Ray ℝ} (hdir : r.direction ≠ 0)
    (tMin : ℝ) {near tMax : ℝ} (hle : near ≤ tMax) :
    s.hit Real.sqrt r tMin near =
      match s.hit Real.sqrt r tMin tMax with
      | some properties => if properties.t < near then some properties else none
      | none => none := by
  rw [Sphere.hit_eq Real.sqrt s r tMin near, Sphere.hit_eq Real.sqrt s r tMin tMax]
  by_cases hd : Sphere.disc s r > 0
  · have h12 := Sphere.root1_lt_root2 s hdir hd
    simp only [if_pos hd]
    by_cases h1 : Sphere.root1 Real.sqrt s r > tMin
    · by_cases h1n : Sphere.root1 Real.sqrt s r < near
      · have h1m : Sphere.root1 Real.sqrt s r < tMax := lt_of_lt_of_le h1n hle
        simp [h1, h1n, h1m, Sphere.record]
      · have h2n : ¬ Sphere.root2 Real.sqrt s r < near := fun h => h1n (lt_trans h12 h)
        by_cases h1m : Sphere.root1 Real.sqrt s r < tMax
        · simp [h1, h1n, h1m, h2n, Sphere.record]
        · have h2m : ¬ Sphere.root2 Real.sqrt s r < tMax := fun h => h1m (lt_trans h12 h)
          simp [h1n, h1m, h2n, h2m]
    · by_cases h2n : Sphere.root2 Real.sqrt s r < near
      · have h2m : Sphere.root2 Real.sqrt s r < tMax := lt_of_lt_of_le h2n hle
        by_cases h2 : Sphere.root2 Real.sqrt s r > tMin
        · simp [h1, h2, h2n, h2m, Sphere.record]
        · simp [h1, h2]
      · by_cases h2 : Sphere.root2 Real.sqrt s r > tMin
        · by_cases h2m : Sphere.root2 Real.sqrt s r < tMax
          · simp [h1, h2, h2n, h2m, Sphere.record]
          · simp [h1, h2n, h2m]
        · simp [h1, h2]
  · simp only [if_neg hd]

end SphereLemmas

/-! ## Lemmas on the loop of `HitableCollection::hit` -/

section CollectionLemmas

/-- One iteration of the loop, in terms of the sphere's own answer on the full
interval `(tMin, tMax)`. -/
theorem HitableCollection.hitStep_eq {r : Ray ℝ} (hdir : r.direction ≠ 0) (tMin : ℝ)
    {tMax : ℝ} (st : ℝ × Option (HitableProperties ℝ)) (hle : st.1 ≤ tMax) (x : Sphere ℝ) :
    HitableCollection.hitStep Real.sqrt r tMin st x =
      match x.hit Real.sqrt r tMin tMax with
      | some properties => if properties.t < st.1 then (properties.t, some properties) else st
      | none => st := by
  unfold HitableCollection.hitStep
  rw [Sphere.hit_shrink x hdir tMin hle]
  cases hx : x.hit Real.sqrt r tMin tMax with
  | none => rfl
  | some properties =>
    by_cases hlt : properties.t < st.1
    · simp [hlt]
    · simp [hlt]

/-- Invariant of the loop, started from any state below `tMax`: either no sphere of
the list improves on the state, or the final state is the record of a sphere of the
list that is strictly nearer than every sphere before it and at least as near as
every sphere after it. -/
theorem HitableCollection.foldl_hitStep {r : Ray ℝ} (hdir : r.direction ≠ 0) (tMin tMax : ℝ)
    (l : List (Sphere ℝ)) :
    ∀ st : ℝ × Option (HitableProperties ℝ), st.1 ≤ tMax →
      (l.foldl (HitableCollection.hitStep Real.sqrt r tMin) st = st ∧
          ∀ x ∈ l, ∀ q, x.hit Real.sqrt r tMin tMax = some q → st.1 ≤ q.t) ∨
      (∃ pre x post properties, l = pre ++ x :: post ∧
          l.foldl (HitableCollection.hitStep Real.sqrt r tMin) st
            = (properties.t, some properties) ∧
          x.hit Real.sqrt r tMin tMax = some properties ∧ properties.t < st.1 ∧
          (∀ y ∈ pre, ∀ q, y.hit Real.sqrt r tMin tMax = some q → properties.t < q.t) ∧
          (∀ y ∈ post, ∀ q, y.hit Real.sqrt r tMin tMax = some q → properties.t ≤ q.t)) := by
  induction l with
  | nil =>
    intro st _
    exact Or.inl ⟨rfl, by simp⟩
  | cons x xs ih =>
    intro st hle
    rw [List.foldl_cons, HitableCollection.hitStep_eq hdir tMin st hle x]
    cases hx : x.hit Real.sqrt r tMin tMax with
    | none =>
      simp only
      rcases ih st hle with ⟨hst, hall⟩ | ⟨pre, y, post, p, hl, hres, hy, hlt, hpre, hpost⟩
      · refine Or.inl ⟨hst, ?_⟩
        intro z hz q hq
        rcases List.mem_cons.mp hz with rfl | hz
        · rw [hx] at hq
          exact absurd hq (by simp)
        · exact hall z hz q hq
      · refine Or.inr ⟨x :: pre, y, post, p, by rw [hl]; rfl, hres, hy, hlt, ?_, hpost⟩
        intro z hz q hq
        rcases List.mem_cons.mp hz with rfl | hz
        · rw [hx] at hq
          exact absurd hq (by simp)
        · exact hpre z hz q hq
    | some px =>
      simp only
      by_cases hnear : px.t < st.1
      · rw [if_pos hnear]
        have hle2 : (px.t, some px).1 ≤ tMax := le_trans (le_of_lt hnear) hle
        rcases ih (px.t, some px) hle2 with
          ⟨hst, hall⟩ | ⟨pre, y, post, p, hl, hres, hy, hlt, hpre, hpost⟩
        · exact Or.inr ⟨[], x, xs, px, rfl, hst, hx, hnear, by simp, hall⟩
        · refine Or.inr ⟨x :: pre, y, post, p, by rw [hl]; rfl, hres, hy,
            lt_trans hlt hnear, ?_, hpost⟩
          intro z hz q hq
          rcases List.mem_cons.mp hz with rfl | hz
          · rw [hx] at hq
            rw [← Option.some.inj hq]
            exact hlt
          · exact hpre z hz q hq
      · rw [if_neg hnear]
        rcases ih st hle with ⟨hst, hall⟩ | ⟨pre, y, post, p, hl, hres, hy, hlt, hpre, hpost⟩
        · refine Or.inl ⟨hst, ?_⟩
          intro z hz q hq
          rcases List.mem_cons.mp hz with rfl | hz
          · rw [hx] at hq
            rw [← Option.some.inj hq]
            exact not_lt.mp hnear
          · exact hall z hz q hq
        · refine Or.inr ⟨x :: pre, y, post, p, by rw [hl]; rfl, hres, hy, hlt, ?_, hpost⟩
          intro z hz q hq
          rcases List.mem_cons.mp hz with rfl | hz
          · rw [hx] at hq
            rw [← Option.some.inj hq]
            exact lt_of_lt_of_le hlt (not_lt.mp hnear)
          · exact hpre z hz q hq

/-- Once the state holds a record at least as near as every sphere of the rest of the
list, the rest of the loop leaves it alone. -/
theorem HitableCollection.foldl_hitStep_keep {r : Ray ℝ} (hdir : r.direction ≠ 0)
    (tMin tMax : ℝ) (l : List (Sphere ℝ)) (st : ℝ × Option (HitableProperties ℝ))
    (hle : st.1 ≤ tMax)
    (hall : ∀ y ∈ l, ∀ q, y.hit Real.sqrt r tMin tMax = some q → st.1 ≤ q.t) :
    l.foldl (HitableCollection.hitStep Real.sqrt r tMin) st = st := by
  rcases HitableCollection.foldl_hitStep hdir tMin tMax l st hle with
    ⟨hst, _⟩ | ⟨pre, y, post, p, hl, _, hy, hlt, _, _⟩
  · exact hst
  · have hmem : y ∈ l := by rw [hl]; simp
    exact absurd (hall y hmem p hy) (not_le.mpr hlt)

/-- The first sphere that reports the smallest parameter determines the final state of
the loop. -/
theorem HitableCollection.foldl_hitStep_first {r : Ray ℝ} (hdir : r.direction ≠ 0)
    (tMin tMax : ℝ) (x : Sphere ℝ) (post : List (Sphere ℝ)) (p : HitableProperties ℝ)
    (hx : x.hit Real.sqrt r tMin tMax = some p)
    (hpost : ∀ y ∈ post, ∀ q, y.hit Real.sqrt r tMin tMax = some q → p.t ≤ q.t)
    (pre : List (Sphere ℝ)) :
    (∀ y ∈ pre, ∀ q, y.hit Real.sqrt r tMin tMax = some q → p.t < q.t) →
    ∀ st : ℝ × Option (HitableProperties ℝ), st.1 ≤ tMax → p.t < st.1 →
      (pre ++ x :: post).foldl (HitableCollection.hitStep Real.sqrt r tMin) st
        = (p.t, some p) := by
  induction pre with
  | nil =>
    intro _ st hle hlt
    rw [List.nil_append, List.foldl_cons, HitableCollection.hitStep_eq hdir tMin st hle x, hx]
    simp only [if_pos hlt]
    exact HitableCollection.foldl_hitStep_keep hdir tMin tMax post (p.t, some p)
      (le_trans (le_of_lt hlt) hle) hpost
  | cons y ys ih =>
    intro hpre st hle hlt
    have hpre2 : ∀ z ∈ ys, ∀ q, z.hit Real.sqrt r tMin tMax = some q → p.t < q.t :=
      fun z hz q hq => hpre z (List.mem_cons_of_mem y hz) q hq
    rw [List.cons_append, List.foldl_cons, HitableCollection.hitStep_eq hdir tMin st hle y]
    cases hy : y.hit Real.sqrt r tMin tMax with
    | none => exact ih hpre2 st hle hlt
    | some q =>
      simp only
      by_cases hnear : q.t < st.1
      · rw [if_pos hnear]
        exact ih hpre2 (q.t, some q) (le_trans (le_of_lt hnear) hle)
          (hpre y (List.mem_cons_self y ys) q hy)
      · rw [if_neg hnear]
        exact ih hpre2 st hle hlt

end CollectionLemmas

/-! ## Evaluation of `Sphere::hit` on the axis configuration -/

section Axis

/-- The sphere of radius `rad` about the origin, hit along the z-axis from distance
`d > rad`: the record of the nearer root `d - rad`. -/
theorem Sphere.hit_on_axis (rad d tMin tMax : ℝ) (mat : Material ℝ) (hr : 0 < rad)
    (h1 : tMin < d - rad) (h2 : d + rad < tMax) :
    Sphere.hit Real.sqrt { center := ⟨0, 0, 0⟩, radius := rad, material := mat }
        { origin := ⟨0, 0, -d⟩, direction := ⟨0, 0, 1⟩ } tMin tMax
      = some { t := d - rad, p := ⟨0, 0, -rad⟩, normal := ⟨0, 0, -1⟩, material := mat } := by
  have hdisc : Sphere.disc { center := ⟨0, 0, 0⟩, radius := rad, material := mat }
      { origin := (⟨0, 0, -d⟩ : Vec3 ℝ), direction := ⟨0, 0, 1⟩ } = rad * rad := by
    simp [Sphere.disc, Sphere.qa, Sphere.qb, Sphere.qc, Vec3.dotProduct]
  have hroot : Sphere.root1 Real.sqrt { center := ⟨0, 0, 0⟩, radius := rad, material := mat }
      { origin := (⟨0, 0, -d⟩ : Vec3 ℝ), direction := ⟨0, 0, 1⟩ } = d - rad := by
    rw [Sphere.root1, hdisc, Real.sqrt_mul_self (le_of_lt hr)]
    simp [Sphere.qa, Sphere.qb, Vec3.dotProduct]
  have hpos : rad * rad > 0 := mul_pos hr hr
  have hne : rad ≠ 0 := ne_of_gt hr
  rw [Sphere.hit_eq, hdisc, if_pos hpos, hroot, if_pos ⟨by linarith, h1⟩]
  simp only [Sphere.record, Ray.pointAtParameter]
  congr 2
  · ext
    · simp
    · simp
    · simp only [Vec3.add_z, Vec3.smul_z]
      ring
  · ext
    · simp
    · simp
    · simp only [Vec3.div_z, Vec3.sub_z, Vec3.add_z, Vec3.smul_z]
      field_simp
      ring

theorem axisRay_direction_ne_zero : (axisRay : Ray ℝ).direction ≠ 0 := by
  intro h
  have hz := congrArg Vec3.z h
  simp [axisRay] at hz

theorem unitSphere_hit_axisRay (material : Material ℝ) :
    (unitSphere material).hit Real.sqrt axisRay 0 10 = some (axisRecord material) := by
  have h := Sphere.hit_on_axis 1 2 0 10 material (by norm_num) (by norm_num) (by norm_num)
  have e : (2 : ℝ) - 1 = 1 := by norm_num
  rw [e] at h
  exact h

end Axis

/-! ## Properties of `Sphere::hit` and `HitableCollection::hit` -/

section GeometryProperties

theorem Vec3.dotProduct_div {F : Type} [LinearOrderedField F] (a b : Vec3 F) (k : F) :
    Vec3.dotProduct (a / k) (b / k) = Vec3.dotProduct a b / (k * k) := by
  simp only [Vec3.dotProduct, Vec3.div_x, Vec3.div_y, Vec3.div_z, div_mul_div_comm, add_div]

/-- C1: for a ray of non-zero direction, `HitableCollection::hit` returns `true`
exactly when some sphere of the list returns `true` for `(tMin, tMax)`, and the record
it returns is the record one of the spheres reports, with the least `t` among the
records the spheres report. -/
theorem HitableCollection.hit_closest (world : HitableCollection ℝ) (r : Ray ℝ)
    (tMin tMax : ℝ) (hdir : r.direction ≠ 0) :
    ((world.hit Real.sqrt r tMin tMax).isSome = true ↔
        ∃ s ∈ world.list, (s.hit Real.sqrt r tMin tMax).isSome = true) ∧
    ∀ properties, world.hit Real.sqrt r tMin tMax = some properties →
      (∃ s ∈ world.list, s.hit Real.sqrt r tMin tMax = some properties) ∧
      ∀ s ∈ world.list, ∀ q, s.hit Real.sqrt r tMin tMax = some q → properties.t ≤ q.t := by
  unfold HitableCollection.hit
  rcases HitableCollection.foldl_hitStep hdir tMin tMax world.list (tMax, none) le_rfl with
    ⟨hst, hall⟩ | ⟨pre, x, post, p, hl, hres, hx, _, hpre, hpost⟩
  · rw [hst]
    have hnone : ∀ s ∈ world.list, s.hit Real.sqrt r tMin tMax = none := by
      intro s hs
      cases hq : s.hit Real.sqrt r tMin tMax with
      | none => rfl
      | some q =>
        exact absurd (hall s hs q hq) (not_le.mpr (Sphere.hit_t_bounds s hdir hq).2)
    constructor
    · constructor
      · intro h
        simp at h
      · rintro ⟨s, hs, h⟩
        rw [hnone s hs] at h
        simp at h
    · intro properties h
      simp at h
  · rw [hres]
    have hmem : x ∈ world.list := by rw [hl]; simp
    constructor
    · constructor
      · intro _
        exact ⟨x, hmem, by rw [hx]; rfl⟩
      · intro _
        rfl
    · intro properties h
      have hp : p = properties := Option.some.inj h
      subst hp
      refine ⟨⟨x, hmem, hx⟩, ?_⟩
      intro s hs q hq
      rw [hl] at hs
      rcases List.mem_append.mp hs with hs | hs
      · exact le_of_lt (hpre s hs q hq)
      · rcases List.mem_cons.mp hs with rfl | hs
        · rw [hx] at hq
          rw [Option.some.inj hq]
        · exact hpost s hs q hq

/-- Instance of C1: two unit spheres about the origin, hit along the z-axis. -/
theorem HitableCollection.hit_closest_witness :
    (((HitableCollection.mk [unitSphere matteGrey, unitSphere mirror]).hit
          Real.sqrt axisRay 0 10).isSome = true ↔
        ∃ s ∈ (HitableCollection.mk [unitSphere matteGrey, unitSphere mirror]).list,
          (s.hit Real.sqrt axisRay 0 10).isSome = true) ∧
    ∀ properties,
      (HitableCollection.mk [unitSphere matteGrey, unitSphere mirror]).hit
          Real.sqrt axisRay 0 10 = some properties →
      (∃ s ∈ (HitableCollection.mk [unitSphere matteGrey, unitSphere mirror]).list,
          s.hit Real.sqrt axisRay 0 10 = some properties) ∧
      ∀ s ∈ (HitableCollection.mk [unitSphere matteGrey, unitSphere mirror]).list,
        ∀ q, s.hit Real.sqrt axisRay 0 10 = some q → properties.t ≤ q.t :=
  HitableCollection.hit_closest ⟨[unitSphere matteGrey, unitSphere mirror]⟩ axisRay 0 10
    axisRay_direction_ne_zero

/-- C2: when `Sphere::hit` accepts a hit on a ray of non-zero direction, the reported
`t` lies strictly between `tMin` and `tMax`, the reported point is
`origin + t * direction` and lies on the sphere, and no parameter strictly between
`tMin` and `t` gives a point of the sphere. -/
theorem Sphere.hit_nearest_intersection (s : Sphere ℝ) (r : Ray ℝ) (tMin tMax : ℝ)
    (properties : HitableProperties ℝ) (hdir : r.direction ≠ 0)
    (hhit : s.hit Real.sqrt r tMin tMax = some properties) :
    tMin < properties.t ∧ properties.t < tMax ∧
    properties.p = r.origin + properties.t • r.direction ∧
    Vec3.dotProduct (r.origin + properties.t • r.direction - s.center)
        (r.origin + properties.t • r.direction - s.center) = s.radius * s.radius ∧
    ∀ t, tMin < t → t < properties.t →
      Vec3.dotProduct (r.origin + t • r.direction - s.center)
        (r.origin + t • r.direction - s.center) ≠ s.radius * s.radius := by
  have hp : properties.p = r.origin + properties.t • r.direction := by
    have h := Sphere.hit_record s hdir hhit
    exact congrArg HitableProperties.p h
  refine ⟨(Sphere.hit_t_bounds s hdir hhit).1, (Sphere.hit_t_bounds s hdir hhit).2, hp, ?_, ?_⟩
  · rw [← hp]
    exact Sphere.hit_on_sphere s hdir hhit
  · intro t h1 h2
    exact Sphere.hit_no_earlier s hdir hhit t h1 h2

/-- Instance of C2: the unit sphere about the origin, hit along the z-axis. -/
theorem Sphere.hit_nearest_intersection_witness :
    (0 : ℝ) < (axisRecord (matteGrey : Material ℝ)).t ∧
    (axisRecord (matteGrey : Material ℝ)).t < (10 : ℝ) ∧
    (axisRecord (matteGrey : Material ℝ)).p
      = (axisRay : Ray ℝ).origin
        + (axisRecord (matteGrey : Material ℝ)).t • (axisRay : Ray ℝ).direction ∧
    Vec3.dotProduct
        ((axisRay : Ray ℝ).origin
          + (axisRecord (matteGrey : Material ℝ)).t • (axisRay : Ray ℝ).direction
          - (unitSphere (matteGrey : Material ℝ)).center)
        ((axisRay : Ray ℝ).origin
          + (axisRecord (matteGrey : Material ℝ)).t • (axisRay : Ray ℝ).direction
          - (unitSphere (matteGrey : Material ℝ)).center)
      = (unitSphere (matteGrey : Material ℝ)).radius
        * (unitSphere (matteGrey : Material ℝ)).radius ∧
    ∀ t, (0 : ℝ) < t → t < (axisRecord (matteGrey : Material ℝ)).t →
      Vec3.dotProduct
          ((axisRay : Ray ℝ).origin + t • (axisRay : Ray ℝ).direction
            - (unitSphere (matteGrey : Material ℝ)).center)
          ((axisRay : Ray ℝ).origin + t • (axisRay : Ray ℝ).direction
            - (unitSphere (matteGrey : Material ℝ)).center)
        ≠ (unitSphere (matteGrey : Material ℝ)).radius
          * (unitSphere (matteGrey : Material ℝ)).radius :=
  Sphere.hit_nearest_intersection (unitSphere matteGrey) axisRay 0 10 (axisRecord matteGrey)
    axisRay_direction_ne_zero (unitSphere_hit_axisRay matteGrey)

/-- C3: for `rad > 0`, `d > rad`, `tMin < d - rad` and `d + rad < tMax`, the sphere of
radius `rad` about the origin and the ray from `(0, 0, -d)` with direction `(0, 0, 1)`:
`Sphere::hit` returns `true` and reports `t = d - rad`, the nearer root, with hit point
`(0, 0, -rad)` (and normal `(0, 0, -1)`). -/
theorem Sphere.hit_axis_nearer_root (rad d tMin tMax : ℝ) (material : Material ℝ)
    (hr : 0 < rad) (_hd : rad < d) (h1 : tMin < d - rad) (h2 : d + rad < tMax) :
    Sphere.hit Real.sqrt { center := ⟨0, 0, 0⟩, radius := rad, material := material }
        { origin := ⟨0, 0, -d⟩, direction := ⟨0, 0, 1⟩ } tMin tMax
      = some { t := d - rad, p := ⟨0, 0, -rad⟩, normal := ⟨0, 0, -1⟩, material := material } :=
  Sphere.hit_on_axis rad d tMin tMax material hr h1 h2

/-- Instance of C3: radius `1`, distance `3`, interval `(0, 5)`. -/
theorem Sphere.hit_axis_nearer_root_witness :
    Sphere.hit Real.sqrt { center := ⟨0, 0, 0⟩, radius := 1, material := mirror }
        { origin := ⟨0, 0, -3⟩, direction := ⟨0, 0, 1⟩ } 0 5
      = some { t := 3 - 1, p := ⟨0, 0, -1⟩, normal := ⟨0, 0, -1⟩, material := mirror } :=
  Sphere.hit_axis_nearer_root 1 3 0 5 mirror (by norm_num) (by norm_num) (by norm_num)
    (by norm_num)

/-- C4: when `Sphere::hit` accepts a hit of a ray of non-zero direction on a sphere of
positive radius, the normal it stores has `dotProduct(normal, normal) = 1`. -/
theorem Sphere.hit_normal_unit (s : Sphere ℝ) (r : Ray ℝ) (tMin tMax : ℝ)
    (properties : HitableProperties ℝ) (hrad : 0 < s.radius) (hdir : r.direction ≠ 0)
    (hhit : s.hit Real.sqrt r tMin tMax = some properties) :
    Vec3.dotProduct properties.normal properties.normal = 1 := by
  have hrec := Sphere.hit_record s hdir hhit
  have hn : properties.normal = (properties.p - s.center) / s.radius := by
    have h1 := congrArg HitableProperties.normal hrec
    have h2 := congrArg HitableProperties.p hrec
    rw [h1, h2]
    rfl
  rw [hn, Vec3.dotProduct_div, Sphere.hit_on_sphere s hdir hhit]
  exact div_self (ne_of_gt (mul_pos hrad hrad))

/-- Instance of C4: the unit sphere about the origin, hit along the z-axis. -/
theorem Sphere.hit_normal_unit_witness :
    Vec3.dotProduct (axisRecord (mirror : Material ℝ)).normal (axisRecord mirror).normal = 1 :=
  Sphere.hit_normal_unit (unitSphere mirror) axisRay 0 10 (axisRecord mirror)
    (by simp [unitSphere]) axisRay_direction_ne_zero (unitSphere_hit_axisRay mirror)

/-- C5: when the list is `pre ++ s :: post`, the sphere `s` reports the record
`properties`, every sphere before `s` that hits reports a strictly larger `t` and every
sphere after `s` that hits reports a `t` at least as large (so `s` is the first of the
spheres that report the smallest `t`), then `HitableCollection::hit` returns the record
of `s`: its point, normal and material. -/
theorem HitableCollection.hit_first_wins_ties (world : HitableCollection ℝ) (r : Ray ℝ)
    (tMin tMax : ℝ) (pre post : List (Sphere ℝ)) (s : Sphere ℝ)
    (properties : HitableProperties ℝ)
    (hlist : world.list = pre ++ s :: post)
    (hs : s.hit Real.sqrt r tMin tMax = some properties)
    (hpre : ∀ y ∈ pre, ∀ q, y.hit Real.sqrt r tMin tMax = some q → properties.t < q.t)
    (hpost : ∀ y ∈ post, ∀ q, y.hit Real.sqrt r tMin tMax = some q → properties.t ≤ q.t) :
    world.hit Real.sqrt r tMin tMax = some properties := by
  have hdir := Sphere.hit_direction_ne_zero Real.sqrt s r tMin tMax properties hs
  unfold HitableCollection.hit
  rw [hlist, HitableCollection.foldl_hitStep_first hdir tMin tMax s post properties hs hpost pre
    hpre (tMax, none) le_rfl (Sphere.hit_t_bounds s hdir hs).2]

/-- Instance of C5: two coincident unit spheres of different materials report the same
`t = 1`; the collection returns the record of the one added first. -/
theorem HitableCollection.hit_first_wins_ties_witness :
    (HitableCollection.mk [unitSphere matteGrey, unitSphere mirror]).hit Real.sqrt axisRay 0 10
      = some (axisRecord matteGrey) :=
  HitableCollection.hit_first_wins_ties ⟨[unitSphere matteGrey, unitSphere mirror]⟩ axisRay 0 10
    [] [unitSphere mirror] (unitSphere matteGrey) (axisRecord matteGrey)
    rfl (unitSphere_hit_axisRay matteGrey)
    (by simp)
    (by
      intro y hy q hq
      rw [List.mem_singleton.mp hy, unitSphere_hit_axisRay mirror] at hq
      rw [← Option.some.inj hq]
      exact le_rfl)

end GeometryProperties

/-! ## Lemmas on `calculateColor` -/

section IntegratorLemmas

variable {F : Type} [LinearOrderedField F]

theorem calculateColor_miss (sqrt : F → F) (world : HitableCollection F) (r : Ray F)
    (depth : Int) (draws : Nat → Draw F)
    (hmiss : world.hit sqrt r (1 / 100000) FLT_MAX = none) :
    calculateColor sqrt world r depth draws =
      ((1 - 1 / 2 * ((Vec3.unitVector sqrt r.direction).y + 1)) • WHITE
        + (1 / 2 * ((Vec3.unitVector sqrt r.direction).y + 1)) • BLUE, [depth]) := by
  rw [calculateColor, hmiss]

theorem calculateColor_exhausted (sqrt : F → F) (world : HitableCollection F) (r : Ray F)
    (depth : Int) (draws : Nat → Draw F) (properties : HitableProperties F)
    (hhit : world.hit sqrt r (1 / 100000) FLT_MAX = some properties) (hdepth : ¬ depth < 50) :
    calculateColor sqrt world r depth draws = (BLACK, [depth]) := by
  rw [calculateColor, hhit]
  simp only [dif_neg hdepth]

theorem calculateColor_absorbed (sqrt : F → F) (world : HitableCollection F) (r : Ray F)
    (depth : Int) (draws : Nat → Draw F) (properties : HitableProperties F)
    (hhit : world.hit sqrt r (1 / 100000) FLT_MAX = some properties) (hdepth : depth < 50)
    (habs : (properties.material.scatter sqrt r properties (draws 0)).returned = false) :
    calculateColor sqrt world r depth draws = (BLACK, [depth]) := by
  rw [calculateColor, hhit]
  simp only [dif_pos hdepth, habs]
  rfl

theorem calculateColor_scattered (sqrt : F → F) (world : HitableCollection F) (r : Ray F)
    (depth : Int) (draws : Nat → Draw F) (properties : HitableProperties F)
    (hhit : world.hit sqrt r (1 / 100000) FLT_MAX = some properties) (hdepth : depth < 50)
    (hsc : (properties.material.scatter sqrt r properties (draws 0)).returned = true) :
    calculateColor sqrt world r depth draws =
      ((properties.material.scatter sqrt r properties (draws 0)).rayAttenuation *
          (calculateColor sqrt world
            (properties.material.scatter sqrt r properties (draws 0)).scatteredRay
            (depth + 1) (fun i => draws (i + 1))).1,
        depth :: (calculateColor sqrt world
            (properties.material.scatter sqrt r properties (draws 0)).scatteredRay
            (depth + 1) (fun i => draws (i + 1))).2) := by
  rw [calculateColor, hhit]
  simp only [dif_pos hdepth, hsc, if_true]

/-- The list `[depth, depth + 1, ..., depth + k - 1]`. -/
theorem depths_cons (depth : Int) (k : Nat) :
    depth :: (List.range k).map (fun i : Nat => depth + 1 + (i : Int))
      = (List.range (k + 1)).map (fun i : Nat => depth + (i : Int)) := by
  rw [List.range_succ_eq_map, List.map_cons, List.map_map]
  congr 1
  · simp
  · apply List.map_congr_left
    intro i _
    simp only [Function.comp, Nat.cast_succ]
    ring

/-- The trace of `calculateColor` lists consecutive depths starting at `depth`, and has
at most `1 + (50 - depth)` entries. -/
theorem calculateColor_trace (sqrt : F → F) (world : HitableCollection F) (n : Nat) :
    ∀ (r : Ray F) (depth : Int) (draws : Nat → Draw F), (50 - depth).toNat ≤ n →
      (calculateColor sqrt world r depth draws).2
          = (List.range (calculateColor sqrt world r depth draws).2.length).map
              (fun i : Nat => depth + (i : Int)) ∧
        1 ≤ (calculateColor sqrt world r depth draws).2.length ∧
        (calculateColor sqrt world r depth draws).2.length ≤ 1 + (50 - depth).toNat := by
  induction n with
  | zero =>
    intro r depth draws hn
    have hdepth : ¬ depth < 50 := by omega
    cases hhit : world.hit sqrt r (1 / 100000) FLT_MAX with
    | none =>
      rw [calculateColor_miss sqrt world r depth draws hhit]
      simp [List.range_succ]
    | some properties =>
      rw [calculateColor_exhausted sqrt world r depth draws properties hhit hdepth]
      simp [List.range_succ]
  | succ n ih =>
    intro r depth draws hn
    cases hhit : world.hit sqrt r (1 / 100000) FLT_MAX with
    | none =>
      rw [calculateColor_miss sqrt world r depth draws hhit]
      simp [List.range_succ]
    | some properties =>
      by_cases hdepth : depth < 50
      · cases hsc : (properties.material.scatter sqrt r properties (draws 0)).returned with
        | false =>
          rw [calculateColor_absorbed sqrt world r depth draws properties hhit hdepth hsc]
          simp [List.range_succ]
        | true =>
          rw [calculateColor_scattered sqrt world r depth draws properties hhit hdepth hsc]
          have hrec := ih (properties.material.scatter sqrt r properties (draws 0)).scatteredRay
            (depth + 1) (fun i => draws (i + 1)) (by omega)
          obtain ⟨h1, h2, h3⟩ := hrec
          refine ⟨?_, ?_, ?_⟩
          · simp only [List.length_cons]
            rw [← depths_cons]
            exact congrArg (List.cons depth) h1
          · simp
          · simp only [List.length_cons]
            omega
      · rw [calculateColor_exhausted sqrt world r depth draws properties hhit hdepth]
        simp [List.range_succ]

/-- At depth 50 or more `calculateColor` performs the one invocation only. -/
theorem calculateColor_trace_deep (sqrt : F → F) (world : HitableCollection F) (r : Ray F)
    (depth : Int) (draws : Nat → Draw F) (hdepth : 50 ≤ depth) :
    (calculateColor sqrt world r depth draws).2 = [depth] := by
  cases hhit : world.hit sqrt r (1 / 100000) FLT_MAX with
  | none => rw [calculateColor_miss sqrt world r depth draws hhit]
  | some properties =>
    rw [calculateColor_exhausted sqrt world r depth draws properties hhit (by omega)]

end IntegratorLemmas

/-! ## The depth bound of `calculateColor` -/

section DepthBound

/-- C6: `calculateColor` is total (its recursion is accepted with the measure
`50 - depth`), and for a starting depth `depth ≥ 0` the invocations it performs are at
the consecutive depths `depth, depth + 1, ...` (each recursive call is made at
`depth + 1`), a call at depth 50 or more performs no recursive call, and the number of
invocations is at most 51 (at most `51 - depth` when `depth ≤ 50`). -/
theorem calculateColor_depth_bound {F : Type} [LinearOrderedField F] (sqrt : F → F)
    (world : HitableCollection F) (r : Ray F) (depth : Int) (draws : Nat → Draw F)
    (hdepth : 0 ≤ depth) :
    (50 ≤ depth → (calculateColor sqrt world r depth draws).2 = [depth]) ∧
    (calculateColor sqrt world r depth draws).2
      = (List.range (calculateColor sqrt world r depth draws).2.length).map
          (fun i : Nat => depth + (i : Int)) ∧
    1 ≤ (calculateColor sqrt world r depth draws).2.length ∧
    (calculateColor sqrt world r depth draws).2.length ≤ 51 ∧
    (depth ≤ 50 →
      ((calculateColor sqrt world r depth draws).2.length : Int) ≤ 51 - depth) := by
  obtain ⟨h1, h2, h3⟩ :=
    calculateColor_trace sqrt world (50 - depth).toNat r depth draws le_rfl
  refine ⟨calculateColor_trace_deep sqrt world r depth draws, h1, h2, ?_, ?_⟩
  · omega
  · intro _
    omega

/-- Instance of C6: a trace started at depth 0 on the unit sphere. -/
theorem calculateColor_depth_bound_witness :
    ((50 : Int) ≤ 0 →
      (calculateColor Real.sqrt ⟨[unitSphere matteGrey]⟩ axisRay 0
        (fun _ => ⟨⟨0, 0, 0⟩, 0, ⟨0, 0, 0⟩⟩)).2 = [0]) ∧
    (calculateColor Real.sqrt ⟨[unitSphere matteGrey]⟩ axisRay 0
        (fun _ => ⟨⟨0, 0, 0⟩, 0, ⟨0, 0, 0⟩⟩)).2
      = (List.range (calculateColor Real.sqrt ⟨[unitSphere matteGrey]⟩ axisRay 0
            (fun _ => ⟨⟨0, 0, 0⟩, 0, ⟨0, 0, 0⟩⟩)).2.length).map
          (fun i : Nat => (0 : Int) + (i : Int)) ∧
    1 ≤ (calculateColor Real.sqrt ⟨[unitSphere matteGrey]⟩ axisRay 0
        (fun _ => ⟨⟨0, 0, 0⟩, 0, ⟨0, 0, 0⟩⟩)).2.length ∧
    (calculateColor Real.sqrt ⟨[unitSphere matteGrey]⟩ axisRay 0
        (fun _ => ⟨⟨0, 0, 0⟩, 0, ⟨0, 0, 0⟩⟩)).2.length ≤ 51 ∧
    ((0 : Int) ≤ 50 →
      ((calculateColor Real.sqrt ⟨[unitSphere matteGrey]⟩ axisRay 0
        (fun _ => ⟨⟨0, 0, 0⟩, 0, ⟨0, 0, 0⟩⟩)).2.length : Int) ≤ 51 - 0) :=
  calculateColor_depth_bound Real.sqrt ⟨[unitSphere matteGrey]⟩ axisRay 0
    (fun _ => ⟨⟨0, 0, 0⟩, 0, ⟨0, 0, 0⟩⟩) le_rfl

end DepthBound

/-! ## Lemmas on colours -/

section ColourLemmas

theorem Vec3.unitVector_up :
    Vec3.unitVector Real.sqrt (⟨0, 1, 0⟩ : Vec3 ℝ) = ⟨0, 1, 0⟩ := by
  simp [Vec3.unitVector, Vec3.length, Vec3.squaredLength, Vec3.ext_iff]

theorem Vec3.unitVector_down :
    Vec3.unitVector Real.sqrt (⟨0, -1, 0⟩ : Vec3 ℝ) = ⟨0, -1, 0⟩ := by
  simp [Vec3.unitVector, Vec3.length, Vec3.squaredLength, Vec3.ext_iff]

theorem Vec3.dotProduct_add_smul {F : Type} [LinearOrderedField F] (a b n : Vec3 F) (k : F) :
    Vec3.dotProduct (a + k • b) n = Vec3.dotProduct a n + k * Vec3.dotProduct b n := by
  simp only [Vec3.dotProduct, Vec3.add_x, Vec3.add_y, Vec3.add_z, Vec3.smul_x, Vec3.smul_y,
    Vec3.smul_z]
  ring

end ColourLemmas

/-! ## Properties of `calculateColor` and of `Metal` -/

section IntegratorProperties

/-- C8: for a ray that hits nothing in the world, at every depth, `calculateColor`
returns `(1 - t) * (1, 1, 1) + t * (0.5, 0.7, 1.0)` with `t = (y + 1) / 2`, `y` the
vertical component of the normalised direction; direction `(0, 1, 0)` gives exactly
`(0.5, 0.7, 1.0)` and direction `(0, -1, 0)` gives exactly `(1, 1, 1)`. -/
theorem calculateColor_background (world : HitableCollection ℝ) (r : Ray ℝ) (depth : Int)
    (draws : Nat → Draw ℝ)
    (hmiss : world.hit Real.sqrt r (1 / 100000) FLT_MAX = none) :
    (calculateColor Real.sqrt world r depth draws).1
      = (1 - ((Vec3.unitVector Real.sqrt r.direction).y + 1) / 2) • (⟨1, 1, 1⟩ : Vec3 ℝ)
        + (((Vec3.unitVector Real.sqrt r.direction).y + 1) / 2) • ⟨1 / 2, 7 / 10, 1⟩ ∧
    (r.direction = ⟨0, 1, 0⟩ →
      (calculateColor Real.sqrt world r depth draws).1 = ⟨1 / 2, 7 / 10, 1⟩) ∧
    (r.direction = ⟨0, -1, 0⟩ →
      (calculateColor Real.sqrt world r depth draws).1 = ⟨1, 1, 1⟩) := by
  rw [calculateColor_miss Real.sqrt world r depth draws hmiss]
  refine ⟨?_, ?_, ?_⟩
  · simp only [WHITE, BLUE]
    ext <;> simp <;> ring
  · intro hd
    rw [hd, Vec3.unitVector_up]
    ext <;> simp [WHITE, BLUE] <;> norm_num
  · intro hd
    rw [hd, Vec3.unitVector_down]
    ext <;> simp [WHITE, BLUE]

/-- Instance of C8: the empty world and the ray from the origin straight up. -/
theorem calculateColor_background_witness :
    (calculateColor Real.sqrt ⟨[]⟩ ⟨⟨0, 0, 0⟩, ⟨0, 1, 0⟩⟩ 0
        (fun _ => ⟨⟨0, 0, 0⟩, 0, ⟨0, 0, 0⟩⟩)).1
      = (1 - ((Vec3.unitVector Real.sqrt (Ray.mk (⟨0, 0, 0⟩ : Vec3 ℝ) ⟨0, 1, 0⟩).direction).y + 1)
            / 2) • (⟨1, 1, 1⟩ : Vec3 ℝ)
        + (((Vec3.unitVector Real.sqrt (Ray.mk (⟨0, 0, 0⟩ : Vec3 ℝ) ⟨0, 1, 0⟩).direction).y + 1)
            / 2) • ⟨1 / 2, 7 / 10, 1⟩ ∧
    ((Ray.mk (⟨0, 0, 0⟩ : Vec3 ℝ) ⟨0, 1, 0⟩).direction = ⟨0, 1, 0⟩ →
      (calculateColor Real.sqrt ⟨[]⟩ ⟨⟨0, 0, 0⟩, ⟨0, 1, 0⟩⟩ 0
        (fun _ => ⟨⟨0, 0, 0⟩, 0, ⟨0, 0, 0⟩⟩)).1 = ⟨1 / 2, 7 / 10, 1⟩) ∧
    ((Ray.mk (⟨0, 0, 0⟩ : Vec3 ℝ) ⟨0, 1, 0⟩).direction = ⟨0, -1, 0⟩ →
      (calculateColor Real.sqrt ⟨[]⟩ ⟨⟨0, 0, 0⟩, ⟨0, 1, 0⟩⟩ 0
        (fun _ => ⟨⟨0, 0, 0⟩, 0, ⟨0, 0, 0⟩⟩)).1 = ⟨1, 1, 1⟩) :=
  calculateColor_background ⟨[]⟩ ⟨⟨0, 0, 0⟩, ⟨0, 1, 0⟩⟩ 0
    (fun _ => ⟨⟨0, 0, 0⟩, 0, ⟨0, 0, 0⟩⟩) rfl

/-- C9, as the code has it: the constructor of `Metal` stores `min(bluriness, 1)`, the
value `scatter` scales the random point by; the stored value is at most 1, it is
non-negative when the value passed is, and a negative value is stored unchanged. -/
theorem Metal.new_bluriness {F : Type} [LinearOrderedField F] (sqrt : F → F) (albedo : Vec3 F)
    (bluriness : F) (r_in : Ray F) (hitRecord : HitableProperties F) (draw : Draw F) :
    (Metal.new albedo bluriness).bluriness = min bluriness 1 ∧
    (Metal.new albedo bluriness).bluriness ≤ 1 ∧
    (0 ≤ bluriness → 0 ≤ (Metal.new albedo bluriness).bluriness) ∧
    (bluriness < 0 → (Metal.new albedo bluriness).bluriness = bluriness) ∧
    ((Metal.new albedo bluriness).scatter sqrt r_in hitRecord draw).scatteredRay.direction
      = reflect (Vec3.unitVector sqrt r_in.direction) hitRecord.normal
        + min bluriness 1 • draw.randomPointInUnitSphere := by
  have hmin : (Metal.new albedo bluriness).bluriness = min bluriness 1 := by
    unfold Metal.new
    by_cases h : bluriness < 1
    · simp [h, min_eq_left (le_of_lt h)]
    · simp [h, min_eq_right (not_lt.mp h)]
  refine ⟨hmin, ?_, ?_, ?_, ?_⟩
  · rw [hmin]
    exact min_le_right _ _
  · intro h
    rw [hmin]
    exact le_min h zero_le_one
  · intro h
    rw [hmin]
    exact min_eq_left (le_of_lt (lt_trans h zero_lt_one))
  · simp only [Metal.scatter]
    rw [hmin]

/-- C9 fails as stated: `Metal(albedo, -1)` stores the roughness `-1`, outside `[0, 1]`. -/
theorem Metal.new_negative_bluriness :
    (Metal.new (⟨1, 1, 1⟩ : Vec3 ℝ) (-1)).bluriness = -1 ∧
    ¬ (0 ≤ (Metal.new (⟨1, 1, 1⟩ : Vec3 ℝ) (-1)).bluriness) := by
  have h : (Metal.new (⟨1, 1, 1⟩ : Vec3 ℝ) (-1)).bluriness = -1 := by
    simp [Metal.new]
  rw [h]
  constructor
  · rfl
  · norm_num

/-- C10, as the code has it: `Metal::scatter` stores the direction
`reflected + roughness * sample` and reports failure exactly when its test
`dot(scatteredRay.direction, normal) > 0` on that stored direction fails.  In exact
arithmetic the test fails exactly when
`dot(reflected, normal) + roughness * dot(sample, normal) ≤ 0`; so a reflection with
`dot(reflected, normal) ≤ 0` is absorbed whenever `roughness * dot(sample, normal) ≤ 0`,
in particular whenever the roughness is 0. -/
theorem Metal.scatter_absorbs {F : Type} [LinearOrderedField F] (sqrt : F → F) (m : Metal F)
    (r_in : Ray F) (hitRecord : HitableProperties F) (draw : Draw F) :
    (m.scatter sqrt r_in hitRecord draw).scatteredRay.direction
      = reflect (Vec3.unitVector sqrt r_in.direction) hitRecord.normal
        + m.bluriness • draw.randomPointInUnitSphere ∧
    ((m.scatter sqrt r_in hitRecord draw).returned = false ↔
      ¬ Vec3.dotProduct (m.scatter sqrt r_in hitRecord draw).scatteredRay.direction
          hitRecord.normal > 0) ∧
    ((m.scatter sqrt r_in hitRecord draw).returned = false ↔
      Vec3.dotProduct (reflect (Vec3.unitVector sqrt r_in.direction) hitRecord.normal)
          hitRecord.normal
        + m.bluriness * Vec3.dotProduct draw.randomPointInUnitSphere hitRecord.normal ≤ 0) ∧
    (Vec3.dotProduct (reflect (Vec3.unitVector sqrt r_in.direction) hitRecord.normal)
          hitRecord.normal ≤ 0 →
      m.bluriness * Vec3.dotProduct draw.randomPointInUnitSphere hitRecord.normal ≤ 0 →
      (m.scatter sqrt r_in hitRecord draw).returned = false) ∧
    (Vec3.dotProduct (reflect (Vec3.unitVector sqrt r_in.direction) hitRecord.normal)
          hitRecord.normal ≤ 0 →
      m.bluriness = 0 →
      (m.scatter sqrt r_in hitRecord draw).returned = false) := by
  have htest : (m.scatter sqrt r_in hitRecord draw).returned = false ↔
      ¬ Vec3.dotProduct (m.scatter sqrt r_in hitRecord draw).scatteredRay.direction
          hitRecord.normal > 0 := by
    simp only [Metal.scatter, decide_eq_false_iff_not]
  have hiff : (m.scatter sqrt r_in hitRecord draw).returned = false ↔
      Vec3.dotProduct (reflect (Vec3.unitVector sqrt r_in.direction) hitRecord.normal)
          hitRecord.normal
        + m.bluriness * Vec3.dotProduct draw.randomPointInUnitSphere hitRecord.normal ≤ 0 := by
    simp only [Metal.scatter, Vec3.dotProduct_add_smul, decide_eq_false_iff_not, not_lt, gt_iff_lt]
  refine ⟨rfl, htest, hiff, ?_, ?_⟩
  · intro h1 h2
    exact hiff.mpr (add_nonpos h1 h2)
  · intro h1 h2
    refine hiff.mpr ?_
    rw [h2, zero_mul, add_zero]
    exact h1

/-- C10 fails as stated: a metal of roughness 1, the unit direction `(3/5, 4/5, 0)`
arriving along the normal `(0, 1, 0)` (the mirror reflection `(3/5, -4/5, 0)` points into
the surface), and the sample `(0, 9/10, 0)` of the unit ball: `scatter` returns `true`. -/
theorem Metal.scatter_rough_not_absorbed :
    Vec3.dotProduct
        (reflect (Vec3.unitVector Real.sqrt (⟨3 / 5, 4 / 5, 0⟩ : Vec3 ℝ)) ⟨0, 1, 0⟩)
        ⟨0, 1, 0⟩ ≤ 0 ∧
    Vec3.squaredLength (⟨0, 9 / 10, 0⟩ : Vec3 ℝ) < 1 ∧
    ((Metal.new (⟨1, 1, 1⟩ : Vec3 ℝ) 1).scatter Real.sqrt
        { origin := ⟨0, 0, 0⟩, direction := ⟨3 / 5, 4 / 5, 0⟩ }
        { t := 1, p := ⟨3 / 5, 4 / 5, 0⟩, normal := ⟨0, 1, 0⟩, material := mirror }
        { randomPointInUnitSphere := ⟨0, 9 / 10, 0⟩, drand48 := 0,
          refracted := ⟨0, 0, 0⟩ }).returned = true := by
  have hlen : Real.sqrt (Vec3.squaredLength (⟨3 / 5, 4 / 5, 0⟩ : Vec3 ℝ)) = 1 := by
    have h1 : Vec3.squaredLength (⟨3 / 5, 4 / 5, 0⟩ : Vec3 ℝ) = 1 := by
      simp only [Vec3.squaredLength]
      norm_num
    rw [h1, Real.sqrt_one]
  have hunit : Vec3.unitVector Real.sqrt (⟨3 / 5, 4 / 5, 0⟩ : Vec3 ℝ) = ⟨3 / 5, 4 / 5, 0⟩ := by
    unfold Vec3.unitVector Vec3.length
    rw [hlen]
    ext <;> simp
  refine ⟨?_, ?_, ?_⟩
  · rw [hunit]
    simp only [reflect, Vec3.dotProduct, Vec3.sub_x, Vec3.sub_y, Vec3.sub_z, Vec3.smul_x,
      Vec3.smul_y, Vec3.smul_z]
    norm_num
  · simp only [Vec3.squaredLength]
    norm_num
  · simp only [Metal.scatter, Metal.new, hunit, reflect, Vec3.dotProduct, Vec3.sub_x, Vec3.sub_y,
      Vec3.sub_z, Vec3.smul_x, Vec3.smul_y, Vec3.smul_z, Vec3.add_x, Vec3.add_y, Vec3.add_z,
      decide_eq_true_eq]
    norm_num

end IntegratorProperties

/-! ## Properties of `Dielectric::scatter` -/

section DielectricProperties

/-- The two `if`s that follow the choice of `outwardNormal`, `ni_over_nt` and `cosine`
in `Dielectric::scatter`, by the outcome of `refract`. -/
theorem Dielectric.scatter_eq {F : Type} [LinearOrderedField F] (sqrt : F → F)
    (m : Dielectric F) (r_in : Ray F) (hitRecord : HitableProperties F) (draw : Draw F) :
    m.scatter sqrt r_in hitRecord draw =
      match refract sqrt r_in.direction (Dielectric.orient sqrt m r_in hitRecord).1
          (Dielectric.orient sqrt m r_in hitRecord).2.1 with
      | some refracted =>
        if draw.drand48
            < schlick (Dielectric.orient sqrt m r_in hitRecord).2.2 m.refractiveIndex then
          { returned := true
            scatteredRay :=
              { origin := hitRecord.p, direction := reflect r_in.direction hitRecord.normal }
            rayAttenuation := ⟨1, 1, 1⟩ }
        else
          { returned := true
            scatteredRay := { origin := hitRecord.p, direction := refracted }
            rayAttenuation := ⟨1, 1, 1⟩ }
      | none =>
        if draw.drand48 < 1 then
          { returned := true
            scatteredRay :=
              { origin := hitRecord.p, direction := reflect r_in.direction hitRecord.normal }
            rayAttenuation := ⟨1, 1, 1⟩ }
        else
          { returned := true
            scatteredRay := { origin := hitRecord.p, direction := draw.refracted }
            rayAttenuation := ⟨1, 1, 1⟩ } := by
  unfold Dielectric.scatter
  cases h : refract sqrt r_in.direction (Dielectric.orient sqrt m r_in hitRecord).1
      (Dielectric.orient sqrt m r_in hitRecord).2.1 with
  | none => simp only [h]
  | some refracted => simp only [h]

/-- C11: for every refractive index, incoming ray, hit record and random draw,
`Dielectric::scatter` returns `true` and sets the attenuation to exactly `(1, 1, 1)`,
whichever branch is taken. -/
theorem Dielectric.scatter_white {F : Type} [LinearOrderedField F] (sqrt : F → F)
    (m : Dielectric F) (r_in : Ray F) (hitRecord : HitableProperties F) (draw : Draw F) :
    (m.scatter sqrt r_in hitRecord draw).returned = true ∧
    (m.scatter sqrt r_in hitRecord draw).rayAttenuation = ⟨1, 1, 1⟩ := by
  rw [Dielectric.scatter_eq]
  cases refract sqrt r_in.direction (Dielectric.orient sqrt m r_in hitRecord).1
      (Dielectric.orient sqrt m r_in hitRecord).2.1 with
  | none =>
    simp only
    split_ifs <;> exact ⟨rfl, rfl⟩
  | some refracted =>
    simp only
    split_ifs <;> exact ⟨rfl, rfl⟩

/-- C12: when `refract`, called as `Dielectric::scatter` calls it, reports failure and
the uniform draw lies in `[0, 1)`, the scattered ray is
`Ray(hitPoint, reflect(incoming.direction, normal))`. -/
theorem Dielectric.scatter_total_internal_reflection {F : Type} [LinearOrderedField F]
    (sqrt : F → F) (m : Dielectric F) (r_in : Ray F) (hitRecord : HitableProperties F)
    (draw : Draw F)
    (hfail : refract sqrt r_in.direction (Dielectric.orient sqrt m r_in hitRecord).1
      (Dielectric.orient sqrt m r_in hitRecord).2.1 = none)
    (_hlo : 0 ≤ draw.drand48) (hhi : draw.drand48 < 1) :
    (m.scatter sqrt r_in hitRecord draw).scatteredRay
      = { origin := hitRecord.p, direction := reflect r_in.direction hitRecord.normal } := by
  rw [Dielectric.scatter_eq, hfail]
  simp only [if_pos hhi]

theorem slantRay_unitVector :
    Vec3.unitVector Real.sqrt (slantRay : Ray ℝ).direction = ⟨3 / 5, 4 / 5, 0⟩ := by
  have h1 : Vec3.squaredLength (slantRay : Ray ℝ).direction = 1 := by
    simp only [Vec3.squaredLength, slantRay]
    norm_num
  unfold Vec3.unitVector Vec3.length
  rw [h1, Real.sqrt_one]
  ext <;> simp [slantRay]

theorem slantRay_length : Vec3.length Real.sqrt (slantRay : Ray ℝ).direction = 1 := by
  have h1 : Vec3.squaredLength (slantRay : Ray ℝ).direction = 1 := by
    simp only [Vec3.squaredLength, slantRay]
    norm_num
  unfold Vec3.length
  rw [h1, Real.sqrt_one]

/-- The exiting branch of the first `if` of `Dielectric::scatter`. -/
theorem Dielectric.orient_exit {F : Type} [LinearOrderedField F] (sqrt : F → F)
    (m : Dielectric F) (r_in : Ray F) (hitRecord : HitableProperties F)
    (hexit : Vec3.dotProduct r_in.direction hitRecord.normal > 0) :
    Dielectric.orient sqrt m r_in hitRecord =
      (-hitRecord.normal, m.refractiveIndex,
        sqrt (1 - m.refractiveIndex * m.refractiveIndex *
          (1 - Vec3.dotProduct r_in.direction hitRecord.normal / Vec3.length sqrt r_in.direction
            * (Vec3.dotProduct r_in.direction hitRecord.normal
              / Vec3.length sqrt r_in.direction)))) := by
  unfold Dielectric.orient
  rw [if_pos hexit]

theorem slantRay_exits (material : Material ℝ) :
    Vec3.dotProduct (slantRay : Ray ℝ).direction (slantRecord material).normal > 0 := by
  simp only [Vec3.dotProduct, slantRay, slantRecord]
  norm_num

/-- The discriminant `refract` computes for `slantRay` leaving through the surface of
`slantRecord`, with ratio `k`. -/
theorem slantRay_refract (material : Material ℝ) (k : ℝ) :
    refract Real.sqrt (slantRay : Ray ℝ).direction (-(slantRecord material).normal) k
      = if 1 - k * k * (9 / 25) > 0 then
          some (k • (Vec3.unitVector Real.sqrt (slantRay : Ray ℝ).direction
              - Vec3.dotProduct (Vec3.unitVector Real.sqrt (slantRay : Ray ℝ).direction)
                  (-(slantRecord material).normal) • -(slantRecord material).normal)
            - Real.sqrt (1 - k * k * (9 / 25)) • -(slantRecord material).normal)
        else none := by
  have hdt : Vec3.dotProduct (Vec3.unitVector Real.sqrt (slantRay : Ray ℝ).direction)
      (-(slantRecord material).normal) = -(4 / 5) := by
    rw [slantRay_unitVector]
    simp [Vec3.dotProduct, slantRecord]
  have hd : (1 : ℝ) - k * k * (1 - -(4 / 5) * -(4 / 5)) = 1 - k * k * (9 / 25) := by ring
  simp only [refract, hdt, hd]

/-- Instance of C12: `slantRay` leaving a medium of refractive index 2 is totally
reflected. -/
theorem Dielectric.scatter_total_internal_reflection_witness :
    (Dielectric.scatter Real.sqrt { refractiveIndex := 2 } slantRay (slantRecord mirror)
        halfDraw).scatteredRay
      = { origin := (slantRecord (mirror : Material ℝ)).p
          direction := reflect (slantRay : Ray ℝ).direction
            (slantRecord (mirror : Material ℝ)).normal } :=
  Dielectric.scatter_total_internal_reflection Real.sqrt { refractiveIndex := 2 } slantRay
    (slantRecord mirror) halfDraw
    (by
      rw [Dielectric.orient_exit Real.sqrt _ _ _ (slantRay_exits mirror)]
      simp only [slantRay_refract]
      norm_num)
    (by simp [halfDraw])
    (by
      simp only [halfDraw]
      norm_num)

theorem Vec3.dotProduct_div_left {F : Type} [LinearOrderedField F] (a b : Vec3 F) (k : F) :
    Vec3.dotProduct (a / k) b = Vec3.dotProduct a b / k := by
  simp only [Vec3.dotProduct, Vec3.div_x, Vec3.div_y, Vec3.div_z]
  ring

theorem Vec3.dotProduct_neg_right {F : Type} [LinearOrderedField F] (a b : Vec3 F) :
    Vec3.dotProduct a (-b) = -Vec3.dotProduct a b := by
  simp only [Vec3.dotProduct, Vec3.neg_x, Vec3.neg_y, Vec3.neg_z]
  ring

/-- In the exiting branch the discriminant of `refract` is the argument of the square
root that computes the Schlick cosine. -/
theorem Dielectric.exit_discriminant {F : Type} [LinearOrderedField F] (sqrt : F → F)
    (d n : Vec3 F) (k : F) :
    1 - k * k * (1 - Vec3.dotProduct (Vec3.unitVector sqrt d) (-n)
        * Vec3.dotProduct (Vec3.unitVector sqrt d) (-n))
      = 1 - k * k * (1 - Vec3.dotProduct d n / Vec3.length sqrt d
        * (Vec3.dotProduct d n / Vec3.length sqrt d)) := by
  unfold Vec3.unitVector
  rw [Vec3.dotProduct_div_left, Vec3.dotProduct_neg_right]
  ring

/-- In exact arithmetic, in the exiting branch of `Dielectric::scatter`
(`dot(direction, normal) > 0`), whenever `refract` reports success, the cosine handed to
`schlick` is the square root of `1 - n * n * (1 - cosine * cosine)` and that argument is
strictly positive.  The equality `Dielectric.exit_discriminant` behind it is one of real
numbers: `refract` takes the dot product of the normalised direction, `scatter` divides
the dot product by the length, and in `float` the two round apart. -/
theorem Dielectric.schlick_cosine_argument_pos (m : Dielectric ℝ) (r_in : Ray ℝ)
    (hitRecord : HitableProperties ℝ) (_hdir : r_in.direction ≠ 0)
    (hexit : Vec3.dotProduct r_in.direction hitRecord.normal > 0)
    (hsucc : (refract Real.sqrt r_in.direction (Dielectric.orient Real.sqrt m r_in hitRecord).1
      (Dielectric.orient Real.sqrt m r_in hitRecord).2.1).isSome = true) :
    (Dielectric.orient Real.sqrt m r_in hitRecord).2.2
      = Real.sqrt (1 - m.refractiveIndex * m.refractiveIndex *
          (1 - Vec3.dotProduct r_in.direction hitRecord.normal
              / Vec3.length Real.sqrt r_in.direction
            * (Vec3.dotProduct r_in.direction hitRecord.normal
              / Vec3.length Real.sqrt r_in.direction))) ∧
    0 < 1 - m.refractiveIndex * m.refractiveIndex *
          (1 - Vec3.dotProduct r_in.direction hitRecord.normal
              / Vec3.length Real.sqrt r_in.direction
            * (Vec3.dotProduct r_in.direction hitRecord.normal
              / Vec3.length Real.sqrt r_in.direction)) := by
  rw [Dielectric.orient_exit Real.sqrt m r_in hitRecord hexit] at hsucc ⊢
  refine ⟨rfl, ?_⟩
  simp only [refract] at hsucc
  rw [← Dielectric.exit_discriminant Real.sqrt r_in.direction hitRecord.normal
    m.refractiveIndex]
  by_contra hneg
  rw [if_neg hneg] at hsucc
  simp at hsucc

/-- The exact-arithmetic statement above for `slantRay` leaving glass of refractive
index `3/2`. -/
theorem Dielectric.schlick_cosine_argument_pos_slantRay :
    (Dielectric.orient Real.sqrt { refractiveIndex := 3 / 2 } slantRay (slantRecord mirror)).2.2
      = Real.sqrt (1 - (Dielectric.mk (3 / 2 : ℝ)).refractiveIndex
          * (Dielectric.mk (3 / 2 : ℝ)).refractiveIndex *
          (1 - Vec3.dotProduct (slantRay : Ray ℝ).direction (slantRecord mirror).normal
              / Vec3.length Real.sqrt (slantRay : Ray ℝ).direction
            * (Vec3.dotProduct (slantRay : Ray ℝ).direction (slantRecord mirror).normal
              / Vec3.length Real.sqrt (slantRay : Ray ℝ).direction))) ∧
    0 < 1 - (Dielectric.mk (3 / 2 : ℝ)).refractiveIndex
          * (Dielectric.mk (3 / 2 : ℝ)).refractiveIndex *
          (1 - Vec3.dotProduct (slantRay : Ray ℝ).direction (slantRecord mirror).normal
              / Vec3.length Real.sqrt (slantRay : Ray ℝ).direction
            * (Vec3.dotProduct (slantRay : Ray ℝ).direction (slantRecord mirror).normal
              / Vec3.length Real.sqrt (slantRay : Ray ℝ).direction)) :=
  Dielectric.schlick_cosine_argument_pos { refractiveIndex := 3 / 2 } slantRay
    (slantRecord mirror)
    (by
      intro h
      have hy := congrArg Vec3.y h
      simp [slantRay] at hy)
    (slantRay_exits mirror)
    (by
      rw [Dielectric.orient_exit Real.sqrt _ _ _ (slantRay_exits mirror)]
      simp only [slantRay_refract]
      norm_num)

end DielectricProperties

/-! ## Rays that leave a surface -/

section LeavingProperties

/-- C17: for `tMin > 0`, a ray whose origin lies on the sphere
(`dot(oc, oc) = radius * radius`) and whose non-zero direction does not point into it
(`dot(oc, direction) ≥ 0`) gets no hit from `Sphere::hit`. -/
theorem Sphere.hit_none_from_surface (s : Sphere ℝ) (r : Ray ℝ) (tMin tMax : ℝ)
    (htMin : 0 < tMin) (hdir : r.direction ≠ 0)
    (hon : Vec3.dotProduct (r.origin - s.center) (r.origin - s.center)
      = s.radius * s.radius)
    (hout : Vec3.dotProduct (r.origin - s.center) r.direction ≥ 0) :
    s.hit Real.sqrt r tMin tMax = none := by
  have ha := Sphere.qa_pos hdir
  have hb : 0 ≤ Sphere.qb s r := hout
  have hc : Sphere.qc s r = 0 := by
    unfold Sphere.qc
    rw [hon, sub_self]
  have hdisc : Sphere.disc s r = Sphere.qb s r * Sphere.qb s r := by
    unfold Sphere.disc
    rw [hc, mul_zero, sub_zero]
  rw [Sphere.hit_eq]
  by_cases hd : Sphere.disc s r > 0
  · rw [if_pos hd]
    have hsqrt : Real.sqrt (Sphere.disc s r) = Sphere.qb s r := by
      rw [hdisc]
      exact Real.sqrt_mul_self hb
    have h1 : Sphere.root1 Real.sqrt s r ≤ 0 := by
      unfold Sphere.root1
      rw [hsqrt]
      exact div_nonpos_of_nonpos_of_nonneg (by linarith) (le_of_lt ha)
    have h2 : Sphere.root2 Real.sqrt s r = 0 := by
      unfold Sphere.root2
      rw [hsqrt, neg_add_cancel, zero_div]
    rw [if_neg (fun h => by linarith [h.2]), if_neg (fun h => by linarith [h.2])]
  · rw [if_neg hd]

/-- Instance of C17: the ray leaving the unit sphere at `(0, 0, 1)` along its normal,
with the `tMin` of `calculateColor`. -/
theorem Sphere.hit_none_from_surface_witness :
    (unitSphere (matteGrey : Material ℝ)).hit Real.sqrt
        { origin := ⟨0, 0, 1⟩, direction := ⟨0, 0, 1⟩ } (1 / 100000) FLT_MAX = none :=
  Sphere.hit_none_from_surface (unitSphere matteGrey)
    { origin := ⟨0, 0, 1⟩, direction := ⟨0, 0, 1⟩ } (1 / 100000) FLT_MAX (by norm_num)
    (by
      intro h
      have hz := congrArg Vec3.z h
      simp at hz)
    (by simp [Vec3.dotProduct, unitSphere])
    (by simp [Vec3.dotProduct, unitSphere])

theorem reflect_dotProduct {F : Type} [LinearOrderedField F] (v n : Vec3 F) :
    Vec3.dotProduct (reflect v n) n
      = Vec3.dotProduct v n - 2 * Vec3.dotProduct v n * Vec3.dotProduct n n := by
  simp only [reflect, Vec3.dotProduct, Vec3.sub_x, Vec3.sub_y, Vec3.sub_z, Vec3.smul_x,
    Vec3.smul_y, Vec3.smul_z]
  ring

theorem Vec3.length_pos {v : Vec3 ℝ} (hv : v ≠ 0) : 0 < Vec3.length Real.sqrt v :=
  Real.sqrt_pos.mpr (Vec3.dotProduct_self_pos hv)

/-- C18: for a `Metal` of roughness 0, an incoming ray of non-zero direction `d` and a
hit record of unit normal `n`, `Metal::scatter` returns `true` if and only if
`dot(d, n) < 0`, and the scattered direction is exactly `reflect(normalize(d), n)`. -/
theorem Metal.scatter_mirror (m : Metal ℝ) (r_in : Ray ℝ) (hitRecord : HitableProperties ℝ)
    (draw : Draw ℝ) (hrough : m.bluriness = 0) (hdir : r_in.direction ≠ 0)
    (hn : Vec3.dotProduct hitRecord.normal hitRecord.normal = 1) :
    ((m.scatter Real.sqrt r_in hitRecord draw).returned = true ↔
      Vec3.dotProduct r_in.direction hitRecord.normal < 0) ∧
    (m.scatter Real.sqrt r_in hitRecord draw).scatteredRay.direction
      = reflect (Vec3.unitVector Real.sqrt r_in.direction) hitRecord.normal := by
  have hL := Vec3.length_pos hdir
  constructor
  · simp only [Metal.scatter, Vec3.dotProduct_add_smul, hrough, zero_mul, add_zero,
      decide_eq_true_eq, gt_iff_lt]
    rw [reflect_dotProduct, hn]
    unfold Vec3.unitVector
    rw [Vec3.dotProduct_div_left]
    constructor
    · intro h
      by_contra hge
      have := div_nonneg (not_lt.mp hge) (le_of_lt hL)
      linarith
    · intro h
      have := div_neg_of_neg_of_pos h hL
      linarith
  · simp only [Metal.scatter, hrough]
    ext <;> simp

/-- Instance of C18: the mirror of `populateRandomWorld` hit by `slantRay` from
behind. -/
theorem Metal.scatter_mirror_witness :
    (((Metal.new (⟨7 / 10, 6 / 10, 5 / 10⟩ : Vec3 ℝ) 0).scatter Real.sqrt slantRay
          (slantRecord mirror) halfDraw).returned = true ↔
      Vec3.dotProduct (slantRay : Ray ℝ).direction (slantRecord mirror).normal < 0) ∧
    ((Metal.new (⟨7 / 10, 6 / 10, 5 / 10⟩ : Vec3 ℝ) 0).scatter Real.sqrt slantRay
          (slantRecord mirror) halfDraw).scatteredRay.direction
      = reflect (Vec3.unitVector Real.sqrt (slantRay : Ray ℝ).direction)
          (slantRecord mirror).normal :=
  Metal.scatter_mirror (Metal.new ⟨7 / 10, 6 / 10, 5 / 10⟩ 0) slantRay (slantRecord mirror)
    halfDraw (by simp [Metal.new])
    (by
      intro h
      have hy := congrArg Vec3.y h
      simp [slantRay] at hy)
    (by simp [Vec3.dotProduct, slantRecord])

/-- The Cauchy-Schwarz inequality for `dotProduct`. -/
theorem Vec3.dotProduct_mul_self_le {F : Type} [LinearOrderedField F] (a b : Vec3 F) :
    Vec3.dotProduct a b * Vec3.dotProduct a b
      ≤ Vec3.dotProduct a a * Vec3.dotProduct b b := by
  have h : Vec3.dotProduct a a * Vec3.dotProduct b b
      - Vec3.dotProduct a b * Vec3.dotProduct a b
      = (a.x * b.y - a.y * b.x) * (a.x * b.y - a.y * b.x)
        + (a.y * b.z - a.z * b.y) * (a.y * b.z - a.z * b.y)
        + (a.z * b.x - a.x * b.z) * (a.z * b.x - a.x * b.z) := by
    simp only [Vec3.dotProduct]
    ring
  nlinarith [mul_self_nonneg (a.x * b.y - a.y * b.x), mul_self_nonneg (a.y * b.z - a.z * b.y),
    mul_self_nonneg (a.z * b.x - a.x * b.z)]

/-- Every point the loop of `randomPointInUnitSphere` returns has squared length
below 1. -/
theorem randomPointInUnitSphere_squaredLength {F : Type} [LinearOrderedField F] (fuel : Nat) :
    ∀ (draws : Nat → F) (point : Vec3 F) (rest : Nat → F),
      randomPointInUnitSphere draws fuel = some (point, rest) →
      Vec3.squaredLength point < 1 := by
  induction fuel with
  | zero =>
    intro draws point rest h
    simp [randomPointInUnitSphere] at h
  | succ fuel ih =>
    intro draws point rest h
    simp only [randomPointInUnitSphere] at h
    split_ifs at h with hge
    · exact ih _ point rest h
    · have hp := congrArg Prod.fst (Option.some.inj h)
      simp only at hp
      rw [← hp]
      exact not_le.mp hge

/-- C19: for a hit record of unit normal `n` and a sample `p` of squared length below 1
(as every point returned by `randomPointInUnitSphere` is), the ray produced by
`Lambertian::scatter` starts at the hit point, its direction is `n + p`, is non-zero and
satisfies `dot(direction, n) > 0`. -/
theorem Lambertian.scatter_leaves_surface {F : Type} [LinearOrderedField F]
    (m : Lambertian F) (r_in : Ray F) (hitRecord : HitableProperties F) (draw : Draw F)
    (hn : Vec3.dotProduct hitRecord.normal hitRecord.normal = 1)
    (hp : Vec3.squaredLength draw.randomPointInUnitSphere < 1) :
    (m.scatter r_in hitRecord draw).scatteredRay.origin = hitRecord.p ∧
    (m.scatter r_in hitRecord draw).scatteredRay.direction
      = hitRecord.normal + draw.randomPointInUnitSphere ∧
    (m.scatter r_in hitRecord draw).scatteredRay.direction ≠ 0 ∧
    Vec3.dotProduct (m.scatter r_in hitRecord draw).scatteredRay.direction hitRecord.normal
      > 0 := by
  have hdirection : (m.scatter r_in hitRecord draw).scatteredRay.direction
      = hitRecord.normal + draw.randomPointInUnitSphere := by
    simp only [Lambertian.scatter]
    ext <;> simp only [Vec3.add_x, Vec3.add_y, Vec3.add_z, Vec3.sub_x, Vec3.sub_y, Vec3.sub_z]
      <;> ring
  have hcs := Vec3.dotProduct_mul_self_le draw.randomPointInUnitSphere hitRecord.normal
  rw [hn, mul_one] at hcs
  have hpp : Vec3.dotProduct draw.randomPointInUnitSphere draw.randomPointInUnitSphere < 1 := hp
  have hdot : Vec3.dotProduct (hitRecord.normal + draw.randomPointInUnitSphere)
      hitRecord.normal
      = 1 + Vec3.dotProduct draw.randomPointInUnitSphere hitRecord.normal := by
    rw [← hn]
    simp only [Vec3.dotProduct, Vec3.add_x, Vec3.add_y, Vec3.add_z]
    ring
  have hpos : Vec3.dotProduct (hitRecord.normal + draw.randomPointInUnitSphere)
      hitRecord.normal > 0 := by
    rw [hdot]
    nlinarith
  refine ⟨rfl, hdirection, ?_, ?_⟩
  · rw [hdirection]
    intro hzero
    rw [hzero] at hpos
    simp [Vec3.dotProduct] at hpos
  · rw [hdirection]
    exact hpos

/-- Instance of C19: the grey diffuse surface of `slantRecord` and the sample
`(0, 0, 0)`. -/
theorem Lambertian.scatter_leaves_surface_witness :
    ((Lambertian.mk (⟨1 / 2, 1 / 2, 1 / 2⟩ : Vec3 ℝ)).scatter slantRay (slantRecord matteGrey)
        halfDraw).scatteredRay.origin = (slantRecord matteGrey).p ∧
    ((Lambertian.mk (⟨1 / 2, 1 / 2, 1 / 2⟩ : Vec3 ℝ)).scatter slantRay (slantRecord matteGrey)
        halfDraw).scatteredRay.direction
      = (slantRecord matteGrey).normal + halfDraw.randomPointInUnitSphere ∧
    ((Lambertian.mk (⟨1 / 2, 1 / 2, 1 / 2⟩ : Vec3 ℝ)).scatter slantRay (slantRecord matteGrey)
        halfDraw).scatteredRay.direction ≠ 0 ∧
    Vec3.dotProduct
        ((Lambertian.mk (⟨1 / 2, 1 / 2, 1 / 2⟩ : Vec3 ℝ)).scatter slantRay
          (slantRecord matteGrey) halfDraw).scatteredRay.direction
        (slantRecord matteGrey).normal > 0 :=
  Lambertian.scatter_leaves_surface ⟨⟨1 / 2, 1 / 2, 1 / 2⟩⟩ slantRay (slantRecord matteGrey)
    halfDraw (by simp [Vec3.dotProduct, slantRecord])
    (by simp [Vec3.squaredLength, halfDraw])

end LeavingProperties

/-! ## Properties of the camera -/

section CameraProperties

theorem Vec3.sub_ne_zero {F : Type} [LinearOrderedField F] {a b : Vec3 F} (h : a ≠ b) :
    a - b ≠ 0 := by
  intro h0
  apply h
  have hx := congrArg Vec3.x h0
  have hy := congrArg Vec3.y h0
  have hz := congrArg Vec3.z h0
  simp only [Vec3.sub_x, Vec3.sub_y, Vec3.sub_z, Vec3.zero_x, Vec3.zero_y, Vec3.zero_z] at hx hy hz
  ext
  · exact sub_eq_zero.mp hx
  · exact sub_eq_zero.mp hy
  · exact sub_eq_zero.mp hz

theorem Vec3.dotProduct_comm {F : Type} [LinearOrderedField F] (a b : Vec3 F) :
    Vec3.dotProduct a b = Vec3.dotProduct b a := by
  simp only [Vec3.dotProduct]
  ring

theorem Vec3.crossProduct_dotProduct_left {F : Type} [LinearOrderedField F] (a b : Vec3 F) :
    Vec3.dotProduct (Vec3.crossProduct a b) a = 0 := by
  simp only [Vec3.dotProduct, Vec3.crossProduct]
  ring

theorem Vec3.crossProduct_dotProduct_right {F : Type} [LinearOrderedField F] (a b : Vec3 F) :
    Vec3.dotProduct (Vec3.crossProduct a b) b = 0 := by
  simp only [Vec3.dotProduct, Vec3.crossProduct]
  ring

/-- The identity of Lagrange: `|a × b|² = |a|² |b|² - (a · b)²`. -/
theorem Vec3.crossProduct_dotProduct_self {F : Type} [LinearOrderedField F] (a b : Vec3 F) :
    Vec3.dotProduct (Vec3.crossProduct a b) (Vec3.crossProduct a b)
      = Vec3.dotProduct a a * Vec3.dotProduct b b
        - Vec3.dotProduct a b * Vec3.dotProduct a b := by
  simp only [Vec3.dotProduct, Vec3.crossProduct]
  ring

theorem Vec3.crossProduct_div_right {F : Type} [LinearOrderedField F] (a b : Vec3 F) (k : F) :
    Vec3.crossProduct a (b / k) = Vec3.crossProduct a b / k := by
  ext <;> simp only [Vec3.crossProduct, Vec3.div_x, Vec3.div_y, Vec3.div_z] <;> ring

/-- A vector whose cross product with a non-zero vector `a` vanishes is a multiple
of `a`. -/
theorem Vec3.parallel_of_crossProduct_eq_zero {F : Type} [LinearOrderedField F] {up a : Vec3 F}
    (ha : a ≠ 0) (h : Vec3.crossProduct up a = 0) :
    up = (Vec3.dotProduct a up / Vec3.dotProduct a a) • a := by
  have hpos := Vec3.dotProduct_self_pos ha
  have hne : Vec3.dotProduct a a ≠ 0 := ne_of_gt hpos
  have hx := congrArg Vec3.x h
  have hy := congrArg Vec3.y h
  have hz := congrArg Vec3.z h
  simp only [Vec3.crossProduct, Vec3.zero_x, Vec3.zero_y, Vec3.zero_z] at hx hy hz
  ext
  · simp only [Vec3.smul_x]
    rw [div_mul_eq_mul_div, eq_div_iff hne]
    simp only [Vec3.dotProduct]
    linear_combination a.y * hz - a.z * hy
  · simp only [Vec3.smul_y]
    rw [div_mul_eq_mul_div, eq_div_iff hne]
    simp only [Vec3.dotProduct]
    linear_combination a.z * hx - a.x * hz
  · simp only [Vec3.smul_z]
    rw [div_mul_eq_mul_div, eq_div_iff hne]
    simp only [Vec3.dotProduct]
    linear_combination a.x * hy - a.y * hx

theorem Vec3.unitVector_dotProduct_self {v : Vec3 ℝ} (hv : v ≠ 0) :
    Vec3.dotProduct (Vec3.unitVector Real.sqrt v) (Vec3.unitVector Real.sqrt v) = 1 := by
  have hpos := Vec3.dotProduct_self_pos hv
  have hmul : Vec3.length Real.sqrt v * Vec3.length Real.sqrt v = Vec3.dotProduct v v :=
    Real.mul_self_sqrt (le_of_lt hpos)
  unfold Vec3.unitVector
  rw [Vec3.dotProduct_div, hmul]
  exact div_self (ne_of_gt hpos)

theorem Vec3.length_eq_one {v : Vec3 ℝ} (h : Vec3.dotProduct v v = 1) :
    Vec3.length Real.sqrt v = 1 := by
  show Real.sqrt (Vec3.dotProduct v v) = 1
  rw [h, Real.sqrt_one]

/-- The basis `w = normalize(a)`, `u = normalize(cross(up, w))`, `v = cross(w, u)` is
orthonormal when `a` is non-zero and `up` is not a multiple of `a`. -/
theorem Camera.basis_orthonormal (a up w u v : Vec3 ℝ) (ha : a ≠ 0)
    (hup : ∀ k : ℝ, up ≠ k • a) (hw : w = Vec3.unitVector Real.sqrt a)
    (hu : u = Vec3.unitVector Real.sqrt (Vec3.crossProduct up w))
    (hv : v = Vec3.crossProduct w u) :
    Vec3.dotProduct u u = 1 ∧ Vec3.dotProduct v v = 1 ∧ Vec3.dotProduct w w = 1 ∧
    Vec3.dotProduct u v = 0 ∧ Vec3.dotProduct v w = 0 ∧ Vec3.dotProduct u w = 0 := by
  have hL := Vec3.length_pos ha
  have hww : Vec3.dotProduct w w = 1 := by
    rw [hw]
    exact Vec3.unitVector_dotProduct_self ha
  have hc : Vec3.crossProduct up w ≠ 0 := by
    intro h0
    rw [hw] at h0
    unfold Vec3.unitVector at h0
    rw [Vec3.crossProduct_div_right] at h0
    have hx := congrArg Vec3.x h0
    have hy := congrArg Vec3.y h0
    have hz := congrArg Vec3.z h0
    simp only [Vec3.div_x, Vec3.div_y, Vec3.div_z, Vec3.zero_x, Vec3.zero_y, Vec3.zero_z,
      div_eq_zero_iff, ne_of_gt hL, or_false] at hx hy hz
    have hzero : Vec3.crossProduct up a = 0 := by
      ext
      · exact hx
      · exact hy
      · exact hz
    exact hup _ (Vec3.parallel_of_crossProduct_eq_zero ha hzero)
  have huu : Vec3.dotProduct u u = 1 := by
    rw [hu]
    exact Vec3.unitVector_dotProduct_self hc
  have huw : Vec3.dotProduct u w = 0 := by
    rw [hu]
    unfold Vec3.unitVector
    rw [Vec3.dotProduct_div_left, Vec3.crossProduct_dotProduct_right, zero_div]
  have hvw : Vec3.dotProduct v w = 0 := by
    rw [hv]
    exact Vec3.crossProduct_dotProduct_left w u
  have hvu : Vec3.dotProduct v u = 0 := by
    rw [hv]
    exact Vec3.crossProduct_dotProduct_right w u
  have hvv : Vec3.dotProduct v v = 1 := by
    rw [hv, Vec3.crossProduct_dotProduct_self, hww, huu, Vec3.dotProduct_comm w u, huw]
    norm_num
  exact ⟨huu, hvv, hww, by rw [Vec3.dotProduct_comm, hvu], hvw, huw⟩

/-- C13: for `lookFrom ≠ lookAt` and `up` not a multiple of `lookFrom - lookAt`, the
basis computed by the constructor of `Camera` has `u`, `v`, `w` of length 1, pairwise
orthogonal, and `w` is `lookFrom - lookAt` divided by its (positive) length. -/
theorem Camera.new_orthonormal_basis (tan : ℝ → ℝ) (M_PI : ℝ) (lookFrom lookAt up : Vec3 ℝ)
    (vFov aspectRatio aperture focusDistance : ℝ) (camera : Camera ℝ)
    (hcamera : camera = Camera.new Real.sqrt tan M_PI lookFrom lookAt up vFov aspectRatio
      aperture focusDistance)
    (hne : lookFrom ≠ lookAt) (hup : ∀ k : ℝ, up ≠ k • (lookFrom - lookAt)) :
    (Vec3.length Real.sqrt camera.u = 1 ∧ Vec3.length Real.sqrt camera.v = 1 ∧
      Vec3.length Real.sqrt camera.w = 1) ∧
    (Vec3.dotProduct camera.u camera.v = 0 ∧ Vec3.dotProduct camera.v camera.w = 0 ∧
      Vec3.dotProduct camera.u camera.w = 0) ∧
    camera.w = (lookFrom - lookAt) / Vec3.length Real.sqrt (lookFrom - lookAt) ∧
    0 < Vec3.length Real.sqrt (lookFrom - lookAt) := by
  have ha := Vec3.sub_ne_zero hne
  obtain ⟨huu, hvv, hww, huv, hvw, huw⟩ :=
    Camera.basis_orthonormal (lookFrom - lookAt) up camera.w camera.u camera.v ha hup
      (by rw [hcamera]; rfl) (by rw [hcamera]; rfl) (by rw [hcamera]; rfl)
  refine ⟨⟨Vec3.length_eq_one huu, Vec3.length_eq_one hvv, Vec3.length_eq_one hww⟩,
    ⟨huv, hvw, huw⟩, ?_, Vec3.length_pos ha⟩
  rw [hcamera]
  rfl

/-- Instance of C13: the camera of `main`, looking from `(13, 2, 3)` at the origin with
`up = (0, 1, 0)`. -/
theorem Camera.new_orthonormal_basis_witness :
    (Vec3.length Real.sqrt
        (Camera.new Real.sqrt Real.tan Real.pi ⟨13, 2, 3⟩ ⟨0, 0, 0⟩ ⟨0, 1, 0⟩ 20 (3 / 2) (1 / 10)
          10).u = 1 ∧
      Vec3.length Real.sqrt
        (Camera.new Real.sqrt Real.tan Real.pi ⟨13, 2, 3⟩ ⟨0, 0, 0⟩ ⟨0, 1, 0⟩ 20 (3 / 2) (1 / 10)
          10).v = 1 ∧
      Vec3.length Real.sqrt
        (Camera.new Real.sqrt Real.tan Real.pi ⟨13, 2, 3⟩ ⟨0, 0, 0⟩ ⟨0, 1, 0⟩ 20 (3 / 2) (1 / 10)
          10).w = 1) ∧
    (Vec3.dotProduct
        (Camera.new Real.sqrt Real.tan Real.pi ⟨13, 2, 3⟩ ⟨0, 0, 0⟩ ⟨0, 1, 0⟩ 20 (3 / 2) (1 / 10)
          10).u
        (Camera.new Real.sqrt Real.tan Real.pi ⟨13, 2, 3⟩ ⟨0, 0, 0⟩ ⟨0, 1, 0⟩ 20 (3 / 2) (1 / 10)
          10).v = 0 ∧
      Vec3.dotProduct
        (Camera.new Real.sqrt Real.tan Real.pi ⟨13, 2, 3⟩ ⟨0, 0, 0⟩ ⟨0, 1, 0⟩ 20 (3 / 2) (1 / 10)
          10).v
        (Camera.new Real.sqrt Real.tan Real.pi ⟨13, 2, 3⟩ ⟨0, 0, 0⟩ ⟨0, 1, 0⟩ 20 (3 / 2) (1 / 10)
          10).w = 0 ∧
      Vec3.dotProduct
        (Camera.new Real.sqrt Real.tan Real.pi ⟨13, 2, 3⟩ ⟨0, 0, 0⟩ ⟨0, 1, 0⟩ 20 (3 / 2) (1 / 10)
          10).u
        (Camera.new Real.sqrt Real.tan Real.pi ⟨13, 2, 3⟩ ⟨0, 0, 0⟩ ⟨0, 1, 0⟩ 20 (3 / 2) (1 / 10)
          10).w = 0) ∧
    (Camera.new Real.sqrt Real.tan Real.pi ⟨13, 2, 3⟩ ⟨0, 0, 0⟩ ⟨0, 1, 0⟩ 20 (3 / 2) (1 / 10)
        10).w
      = ((⟨13, 2, 3⟩ : Vec3 ℝ) - ⟨0, 0, 0⟩)
        / Vec3.length Real.sqrt ((⟨13, 2, 3⟩ : Vec3 ℝ) - ⟨0, 0, 0⟩) ∧
    0 < Vec3.length Real.sqrt ((⟨13, 2, 3⟩ : Vec3 ℝ) - ⟨0, 0, 0⟩) :=
  Camera.new_orthonormal_basis Real.tan Real.pi ⟨13, 2, 3⟩ ⟨0, 0, 0⟩ ⟨0, 1, 0⟩ 20 (3 / 2) (1 / 10)
    10 _ rfl
    (by
      intro h
      have hx := congrArg Vec3.x h
      norm_num at hx)
    (by
      intro k h
      have hx := congrArg Vec3.x h
      have hy := congrArg Vec3.y h
      simp only [Vec3.smul_x, Vec3.smul_y, Vec3.sub_x, Vec3.sub_y] at hx hy
      have hk : k = 0 := by linarith
      rw [hk] at hy
      norm_num at hy)

/-- C14: the ray of `Camera::calculateRay(s, t)` has
`pointAtParameter(1) = lowerLeftCorner + s * horizontal + t * vertical` whatever the lens
sample `(x, y)`, and its origin is `origin + lensRadius * (x * u + y * v)`, where the
constructor sets `origin = lookFrom` and `lensRadius = aperture / 2`. -/
theorem Camera.calculateRay_through_viewport {F : Type} [LinearOrderedField F]
    (sqrt tan : F → F) (M_PI : F) (lookFrom lookAt up : Vec3 F)
    (vFov aspectRatio aperture focusDistance : F) (camera : Camera F) (s t : F)
    (randomPointInUnitDisk : Vec3 F) :
    (camera.calculateRay s t randomPointInUnitDisk).pointAtParameter 1
      = camera.lowerLeftCorner + s • camera.horizontal + t • camera.vertical ∧
    (camera.calculateRay s t randomPointInUnitDisk).origin
      = camera.origin + camera.lensRadius
        • (randomPointInUnitDisk.x • camera.u + randomPointInUnitDisk.y • camera.v) ∧
    (Camera.new sqrt tan M_PI lookFrom lookAt up vFov aspectRatio aperture
      focusDistance).origin = lookFrom ∧
    (Camera.new sqrt tan M_PI lookFrom lookAt up vFov aspectRatio aperture
      focusDistance).lensRadius = aperture / 2 := by
  refine ⟨?_, ?_, rfl, rfl⟩
  · simp only [Camera.calculateRay, Ray.pointAtParameter]
    ext <;> simp only [Vec3.add_x, Vec3.add_y, Vec3.add_z, Vec3.sub_x, Vec3.sub_y, Vec3.sub_z,
      Vec3.smul_x, Vec3.smul_y, Vec3.smul_z] <;> ring
  · simp only [Camera.calculateRay]
    ext <;> simp only [Vec3.add_x, Vec3.add_y, Vec3.add_z, Vec3.smul_x, Vec3.smul_y,
      Vec3.smul_z] <;> ring

end CameraProperties

/-! ## Properties of the quantisation -/

section QuantisationProperties

theorem channel_eq_floor {F : Type} [LinearOrderedField F] [FloorRing F] (c : F) (h0 : 0 ≤ c) :
    channel c = Int.floor (25599999 / 100000 * c) := by
  unfold channel toInt
  rw [if_pos (mul_nonneg (by norm_num) h0)]

theorem channel_bounds {F : Type} [LinearOrderedField F] [FloorRing F] (c : F) (h0 : 0 ≤ c)
    (h1 : c ≤ 1) : 0 ≤ channel c ∧ channel c ≤ 255 := by
  rw [channel_eq_floor c h0]
  have hnn : (0 : F) ≤ 25599999 / 100000 * c := mul_nonneg (by norm_num) h0
  have hlt : (25599999 / 100000 * c : F) < ((256 : Int) : F) := by
    have h2 : (25599999 / 100000 * c : F) ≤ 25599999 / 100000 * 1 :=
      mul_le_mul_of_nonneg_left h1 (by norm_num)
    have h3 : (25599999 / 100000 * 1 : F) < ((256 : Int) : F) := by norm_num
    exact lt_of_le_of_lt h2 h3
  constructor
  · exact Int.floor_nonneg.mpr hnn
  · have := Int.floor_lt.mpr hlt
    omega

/-- The sum accumulated by the pixel loop lies between the start value and the start
value plus the number of samples, in every channel. -/
theorem foldl_add_bounds {F : Type} [LinearOrderedField F] (l : List (Vec3 F)) :
    ∀ acc : Vec3 F, (∀ c ∈ l, c.inUnit) →
      (acc.x ≤ (l.foldl (fun color sample => color + sample) acc).x ∧
        (l.foldl (fun color sample => color + sample) acc).x ≤ acc.x + (l.length : F)) ∧
      (acc.y ≤ (l.foldl (fun color sample => color + sample) acc).y ∧
        (l.foldl (fun color sample => color + sample) acc).y ≤ acc.y + (l.length : F)) ∧
      (acc.z ≤ (l.foldl (fun color sample => color + sample) acc).z ∧
        (l.foldl (fun color sample => color + sample) acc).z ≤ acc.z + (l.length : F)) := by
  induction l with
  | nil =>
    intro acc _
    simp
  | cons c cs ih =>
    intro acc hall
    obtain ⟨⟨cx0, cx1⟩, ⟨cy0, cy1⟩, ⟨cz0, cz1⟩⟩ := hall c (List.mem_cons_self c cs)
    obtain ⟨⟨hx0, hx1⟩, ⟨hy0, hy1⟩, ⟨hz0, hz1⟩⟩ :=
      ih (acc + c) (fun d hd => hall d (List.mem_cons_of_mem c hd))
    simp only [List.foldl_cons, List.length_cons, Nat.cast_succ, Vec3.add_x, Vec3.add_y,
      Vec3.add_z] at hx0 hx1 hy0 hy1 hz0 hz1 ⊢
    refine ⟨⟨?_, ?_⟩, ⟨?_, ?_⟩, ⟨?_, ?_⟩⟩ <;> linarith

/-- The average of colours with channels in `[0, 1]` has channels in `[0, 1]`. -/
theorem average_inUnit {F : Type} [LinearOrderedField F] (samples : List (Vec3 F))
    (hall : ∀ c ∈ samples, c.inUnit) : (average samples).inUnit := by
  obtain ⟨⟨hx0, hx1⟩, ⟨hy0, hy1⟩, ⟨hz0, hz1⟩⟩ := foldl_add_bounds samples ⟨0, 0, 0⟩ hall
  simp only [zero_add] at hx1 hy1 hz1
  have hn : (0 : F) ≤ (samples.length : F) := Nat.cast_nonneg _
  unfold average Vec3.inUnit
  simp only [Vec3.div_x, Vec3.div_y, Vec3.div_z]
  exact ⟨⟨div_nonneg hx0 hn, div_le_one_of_le₀ hx1 hn⟩,
    ⟨div_nonneg hy0 hn, div_le_one_of_le₀ hy1 hn⟩,
    ⟨div_nonneg hz0 hn, div_le_one_of_le₀ hz1 hn⟩⟩

theorem sqrt_mem_unit {c : ℝ} (h1 : c ≤ 1) : 0 ≤ Real.sqrt c ∧ Real.sqrt c ≤ 1 := by
  refine ⟨Real.sqrt_nonneg c, ?_⟩
  have h := Real.sqrt_le_sqrt h1
  rw [Real.sqrt_one] at h
  exact h

/-- C15: for an averaged pixel colour with every channel in `[0, 1]`, the three
integers `red`, `green`, `blue` that `main` computes by the square root and
`int(255.99999f * c)` each lie in `[0, 255]`. -/
theorem quantise_range (color : Vec3 ℝ) (hcolor : color.inUnit) :
    (0 ≤ (quantise Real.sqrt color).1 ∧ (quantise Real.sqrt color).1 ≤ 255) ∧
    (0 ≤ (quantise Real.sqrt color).2.1 ∧ (quantise Real.sqrt color).2.1 ≤ 255) ∧
    (0 ≤ (quantise Real.sqrt color).2.2 ∧ (quantise Real.sqrt color).2.2 ≤ 255) := by
  obtain ⟨⟨_, x1⟩, ⟨_, y1⟩, ⟨_, z1⟩⟩ := hcolor
  simp only [quantise]
  exact ⟨channel_bounds _ (sqrt_mem_unit x1).1 (sqrt_mem_unit x1).2,
    channel_bounds _ (sqrt_mem_unit y1).1 (sqrt_mem_unit y1).2,
    channel_bounds _ (sqrt_mem_unit z1).1 (sqrt_mem_unit z1).2⟩

theorem sample_inUnit_white_blue :
    ∀ c ∈ [(WHITE : Vec3 ℝ), BLUE], c.inUnit := by
  intro c hc
  simp only [List.mem_cons, List.mem_singleton, List.not_mem_nil, or_false] at hc
  rcases hc with rfl | rfl
  · simp [WHITE, Vec3.inUnit]
  · simp only [BLUE, Vec3.inUnit]
    norm_num

/-- Instance of C15: the pixel averaged from the two samples `WHITE` and `BLUE`. -/
theorem quantise_range_witness :
    (0 ≤ (quantise Real.sqrt (average [(WHITE : Vec3 ℝ), BLUE])).1 ∧
      (quantise Real.sqrt (average [(WHITE : Vec3 ℝ), BLUE])).1 ≤ 255) ∧
    (0 ≤ (quantise Real.sqrt (average [(WHITE : Vec3 ℝ), BLUE])).2.1 ∧
      (quantise Real.sqrt (average [(WHITE : Vec3 ℝ), BLUE])).2.1 ≤ 255) ∧
    (0 ≤ (quantise Real.sqrt (average [(WHITE : Vec3 ℝ), BLUE])).2.2 ∧
      (quantise Real.sqrt (average [(WHITE : Vec3 ℝ), BLUE])).2.2 ≤ 255) :=
  quantise_range (average [WHITE, BLUE]) (average_inUnit _ sample_inUnit_white_blue)

/-- C16, as the code has it: for a gamma-corrected channel value `c` in `[0, 1]`, the
channel value that `main` writes is `floor(255.99999 * c)`. -/
theorem channel_floor (c : ℝ) (h0 : 0 ≤ c) (_h1 : c ≤ 1) :
    channel c = Int.floor (25599999 / 100000 * c) :=
  channel_eq_floor c h0

/-- Instance of C16 as amended: the channel value `1/2`. -/
theorem channel_floor_witness :
    channel (1 / 2 : ℝ) = Int.floor ((25599999 / 100000 : ℝ) * (1 / 2)) :=
  channel_floor (1 / 2) (by norm_num) (by norm_num)

/-- C16 fails as stated: for `c = 0.500001` the code writes
`floor(255.99999 * c) = 128`, while `floor(255.999 * c) = 127`. -/
theorem channel_ne_floor_255_999 :
    (0 ≤ (500001 / 1000000 : ℝ) ∧ (500001 / 1000000 : ℝ) ≤ 1) ∧
    channel (500001 / 1000000 : ℝ) = 128 ∧
    Int.floor ((255999 / 1000 : ℝ) * (500001 / 1000000)) = 127 := by
  refine ⟨⟨by norm_num, by norm_num⟩, ?_, ?_⟩
  · rw [channel_eq_floor _ (by norm_num), Int.floor_eq_iff]
    constructor <;> norm_num
  · rw [Int.floor_eq_iff]
    constructor <;> norm_num

end QuantisationProperties

/-! ## Properties of `reflect` and `refract` -/

section ReflectRefractProperties

/-- The dot product with `n` of the vector `k (u - (u · n) n) - s n` that `refract`
produces. -/
theorem refracted_dotProduct_normal {F : Type} [LinearOrderedField F] (u n : Vec3 F)
    (k s : F) :
    Vec3.dotProduct (k • (u - Vec3.dotProduct u n • n) - s • n) n
      = k * (Vec3.dotProduct u n - Vec3.dotProduct u n * Vec3.dotProduct n n)
        - s * Vec3.dotProduct n n := by
  simp only [Vec3.dotProduct, Vec3.sub_x, Vec3.sub_y, Vec3.sub_z, Vec3.smul_x, Vec3.smul_y,
    Vec3.smul_z]
  ring

/-- The squared length of the vector `k (u - (u · n) n) - s n` that `refract`
produces. -/
theorem refracted_dotProduct_self {F : Type} [LinearOrderedField F] (u n : Vec3 F)
    (k s : F) :
    Vec3.dotProduct (k • (u - Vec3.dotProduct u n • n) - s • n)
        (k • (u - Vec3.dotProduct u n • n) - s • n)
      = k * k * (Vec3.dotProduct u u - 2 * (Vec3.dotProduct u n * Vec3.dotProduct u n)
          + Vec3.dotProduct u n * Vec3.dotProduct u n * Vec3.dotProduct n n)
        - 2 * k * s * (Vec3.dotProduct u n - Vec3.dotProduct u n * Vec3.dotProduct n n)
        + s * s * Vec3.dotProduct n n := by
  simp only [Vec3.dotProduct, Vec3.sub_x, Vec3.sub_y, Vec3.sub_z, Vec3.smul_x, Vec3.smul_y,
    Vec3.smul_z]
  ring

/-- What `refract` returns when it returns `true`. -/
theorem refract_eq_some {v n : Vec3 ℝ} {ni_over_nt : ℝ} {refracted : Vec3 ℝ}
    (h : refract Real.sqrt v n ni_over_nt = some refracted) :
    1 - ni_over_nt * ni_over_nt *
        (1 - Vec3.dotProduct (Vec3.unitVector Real.sqrt v) n
          * Vec3.dotProduct (Vec3.unitVector Real.sqrt v) n) > 0 ∧
    refracted
      = ni_over_nt • (Vec3.unitVector Real.sqrt v
          - Vec3.dotProduct (Vec3.unitVector Real.sqrt v) n • n)
        - Real.sqrt (1 - ni_over_nt * ni_over_nt *
            (1 - Vec3.dotProduct (Vec3.unitVector Real.sqrt v) n
              * Vec3.dotProduct (Vec3.unitVector Real.sqrt v) n)) • n := by
  simp only [refract] at h
  split_ifs at h with hd
  exact ⟨hd, (Option.some.inj h).symm⟩

/-- C21: for a non-zero `v`, a unit vector `n` and any `ni_over_nt`, whenever
`refract(v, n, ni_over_nt)` returns `true` the refracted vector has length exactly 1
and `dot(refracted, n) = -sqrt(discriminant) < 0`. -/
theorem refract_unit_length (v n : Vec3 ℝ) (ni_over_nt : ℝ) (refracted : Vec3 ℝ)
    (hv : v ≠ 0) (hn : Vec3.dotProduct n n = 1)
    (h : refract Real.sqrt v n ni_over_nt = some refracted) :
    Vec3.length Real.sqrt refracted = 1 ∧
    Vec3.dotProduct refracted n
      = -Real.sqrt (1 - ni_over_nt * ni_over_nt *
          (1 - Vec3.dotProduct (Vec3.unitVector Real.sqrt v) n
            * Vec3.dotProduct (Vec3.unitVector Real.sqrt v) n)) ∧
    Vec3.dotProduct refracted n < 0 := by
  obtain ⟨hd, hr⟩ := refract_eq_some h
  have huu := Vec3.unitVector_dotProduct_self hv
  have hs := Real.mul_self_sqrt (le_of_lt hd)
  have hspos := Real.sqrt_pos.mpr hd
  have hdot : Vec3.dotProduct refracted n
      = -Real.sqrt (1 - ni_over_nt * ni_over_nt *
          (1 - Vec3.dotProduct (Vec3.unitVector Real.sqrt v) n
            * Vec3.dotProduct (Vec3.unitVector Real.sqrt v) n)) := by
    rw [hr, refracted_dotProduct_normal, hn]
    ring
  refine ⟨?_, hdot, ?_⟩
  · apply Vec3.length_eq_one
    rw [hr, refracted_dotProduct_self, hn, huu, hs]
    ring
  · rw [hdot]
    linarith

theorem refract_straight_down :
    refract Real.sqrt (⟨0, -1, 0⟩ : Vec3 ℝ) ⟨0, 1, 0⟩ (2 / 3) = some ⟨0, -1, 0⟩ := by
  have hdt : Vec3.dotProduct (⟨0, -1, 0⟩ : Vec3 ℝ) ⟨0, 1, 0⟩ = -1 := by
    simp [Vec3.dotProduct]
  have hd : (1 : ℝ) - 2 / 3 * (2 / 3) * (1 - -1 * -1) = 1 := by norm_num
  simp only [refract, Vec3.unitVector_down, hdt, hd, Real.sqrt_one]
  rw [if_pos (by norm_num)]
  congr 1
  ext <;> simp

/-- Instance of C21: the ray straight down onto a surface of normal `(0, 1, 0)`, with
ratio `2/3`, goes straight through. -/
theorem refract_unit_length_witness :
    Vec3.length Real.sqrt (⟨0, -1, 0⟩ : Vec3 ℝ) = 1 ∧
    Vec3.dotProduct (⟨0, -1, 0⟩ : Vec3 ℝ) ⟨0, 1, 0⟩
      = -Real.sqrt (1 - 2 / 3 * (2 / 3) *
          (1 - Vec3.dotProduct (Vec3.unitVector Real.sqrt (⟨0, -1, 0⟩ : Vec3 ℝ)) ⟨0, 1, 0⟩
            * Vec3.dotProduct (Vec3.unitVector Real.sqrt (⟨0, -1, 0⟩ : Vec3 ℝ)) ⟨0, 1, 0⟩)) ∧
    Vec3.dotProduct (⟨0, -1, 0⟩ : Vec3 ℝ) ⟨0, 1, 0⟩ < 0 :=
  refract_unit_length ⟨0, -1, 0⟩ ⟨0, 1, 0⟩ (2 / 3) ⟨0, -1, 0⟩
    (by
      intro h0
      have hy := congrArg Vec3.y h0
      simp at hy)
    (by simp [Vec3.dotProduct])
    refract_straight_down

/-- C22: for every vector `v` and every unit vector `n`, `reflect(v, n)` has the squared
length of `v`, `dot(reflect(v, n), n) = -dot(v, n)`, and
`reflect(reflect(v, n), n) = v`. -/
theorem reflect_involution {F : Type} [LinearOrderedField F] (v n : Vec3 F)
    (hn : Vec3.dotProduct n n = 1) :
    Vec3.squaredLength (reflect v n) = Vec3.squaredLength v ∧
    Vec3.dotProduct (reflect v n) n = -Vec3.dotProduct v n ∧
    reflect (reflect v n) n = v := by
  have hn1 : n.x * n.x + n.y * n.y + n.z * n.z = 1 := hn
  refine ⟨?_, ?_, ?_⟩
  · simp only [Vec3.squaredLength, reflect, Vec3.dotProduct, Vec3.sub_x, Vec3.sub_y,
      Vec3.sub_z, Vec3.smul_x, Vec3.smul_y, Vec3.smul_z]
    linear_combination
      (4 * (v.x * n.x + v.y * n.y + v.z * n.z) * (v.x * n.x + v.y * n.y + v.z * n.z)) * hn1
  · rw [reflect_dotProduct, hn]
    ring
  · ext
    · simp only [reflect, Vec3.dotProduct, Vec3.sub_x, Vec3.sub_y, Vec3.sub_z, Vec3.smul_x,
        Vec3.smul_y, Vec3.smul_z]
      linear_combination (4 * (v.x * n.x + v.y * n.y + v.z * n.z) * n.x) * hn1
    · simp only [reflect, Vec3.dotProduct, Vec3.sub_x, Vec3.sub_y, Vec3.sub_z, Vec3.smul_x,
        Vec3.smul_y, Vec3.smul_z]
      linear_combination (4 * (v.x * n.x + v.y * n.y + v.z * n.z) * n.y) * hn1
    · simp only [reflect, Vec3.dotProduct, Vec3.sub_x, Vec3.sub_y, Vec3.sub_z, Vec3.smul_x,
        Vec3.smul_y, Vec3.smul_z]
      linear_combination (4 * (v.x * n.x + v.y * n.y + v.z * n.z) * n.z) * hn1

/-- Instance of C22: the direction `(3/5, 4/5, 0)` and the normal `(0, 1, 0)`. -/
theorem reflect_involution_witness :
    Vec3.squaredLength (reflect (⟨3 / 5, 4 / 5, 0⟩ : Vec3 ℝ) ⟨0, 1, 0⟩)
      = Vec3.squaredLength (⟨3 / 5, 4 / 5, 0⟩ : Vec3 ℝ) ∧
    Vec3.dotProduct (reflect (⟨3 / 5, 4 / 5, 0⟩ : Vec3 ℝ) ⟨0, 1, 0⟩) ⟨0, 1, 0⟩
      = -Vec3.dotProduct (⟨3 / 5, 4 / 5, 0⟩ : Vec3 ℝ) ⟨0, 1, 0⟩ ∧
    reflect (reflect (⟨3 / 5, 4 / 5, 0⟩ : Vec3 ℝ) ⟨0, 1, 0⟩) ⟨0, 1, 0⟩ = ⟨3 / 5, 4 / 5, 0⟩ :=
  reflect_involution ⟨3 / 5, 4 / 5, 0⟩ ⟨0, 1, 0⟩ (by simp [Vec3.dotProduct])

end ReflectRefractProperties

/-! ## Energy non-increase of `calculateColor` -/

section EnergyProperties

end EnergyProperties

end Raytracer
